import Mathlib

/-!
Verification of `datadog_checks_dev/datadog_checks/dev/tooling/commands/release/testable.py`.

The module is shallowly embedded: Python strings are `String` (manipulated
through their `List Char` data so that every operation is executable and
kernel-reducible), the external collaborators (git log output, the GitHub
API, the Trello client, the interactive keyboard) are parameters of the
model, and the observable behaviour of the command (messages printed,
cards created, sleeps, prompts) is an explicit event trace.
-/

/-! ## Python string primitives

Faithful char-level models of the Python `str` operations the source uses
(`split`, `join`, `strip`, `startswith`, lexicographic comparison).  The
Lean core `String` functions are avoided because they are implemented on
byte positions and do not reduce in the kernel.
-/

/-- Python `s.split(sep)` for a one-character separator: splits a char list
on every occurrence of `sep`, keeping empty groups.  Always nonempty. -/
def splitChar (sep : Char) : List Char → List (List Char)
  | [] => [[]]
  | c :: rest =>
    match splitChar sep rest with
    | [] => [[]]
    | g :: gs => if c = sep then [] :: g :: gs else (c :: g) :: gs

/-- Python `sep.join(groups)` for a one-character separator, on char lists. -/
def joinChar (sep : Char) : List (List Char) → List Char
  | [] => []
  | [g] => g
  | g :: gs => g ++ sep :: joinChar sep gs

/-- Python `value.split('.')` (the source at `testable.py:30`). -/
def pySplitDot (s : String) : List String :=
  (splitChar '.' s.data).map String.mk

/-- Python `'.'.join(parts)` (the source at `testable.py:43` and `:47`). -/
def joinDot : List String → String
  | [] => ""
  | [x] => x
  | x :: xs => x ++ "." ++ joinDot xs

/-- Python `s.startswith(pre)`. -/
def pyStartsWith (s pre : String) : Bool :=
  pre.data.isPrefixOf s.data

/-- Python `s.strip()`: removes leading and trailing whitespace. -/
def pyStrip (s : String) : String :=
  String.mk (((s.data.dropWhile Char.isWhitespace).reverse.dropWhile Char.isWhitespace).reverse)

/-- Python `label.split('/', 1)[1]`: everything after the first `/`
(the source at `testable.py:260`; only evaluated under a
`label.startswith('changelog/')` guard, so a `/` is always present). -/
def afterFirstSlash (s : String) : String :=
  String.mk ((s.data.dropWhile (· ≠ '/')).drop 1)

/-- Lexicographic code-point comparison of char lists, as Python compares
strings. -/
def lexLe : List Char → List Char → Bool
  | [], _ => true
  | _ :: _, [] => false
  | x :: xs, y :: ys =>
    if x.toNat < y.toNat then true
    else if y.toNat < x.toNat then false
    else lexLe xs ys

/-- Insert into a lexicographically sorted list of strings. -/
def insertSorted (x : String) : List String → List String
  | [] => [x]
  | y :: ys => if lexLe x.data y.data then x :: y :: ys else y :: insertSorted x ys

/-- Python `sorted(strings)` (the source at `testable.py:253`). -/
def sortStrings : List String → List String
  | [] => []
  | x :: xs => insertSorted x (sortStrings xs)

/-! ## Version Reference Normalizer (`validate_version`, `testable.py:20-48`) -/

/-- A strict-semver numeric component: nonempty, all digits. -/
def isDigitsOnly (l : List Char) : Bool :=
  !l.isEmpty && l.all (·.isDigit)

/-- Strict semver forbids leading zeros in numeric components. -/
def noLeadingZero (l : List Char) : Bool :=
  l = ['0'] || l.head? != some '0'

/-- A valid semver `major`/`minor`/`patch` component. -/
def numericOk (l : List Char) : Bool :=
  isDigitsOnly l && noLeadingZero l

/-- A valid semver prerelease identifier: nonempty, alphanumeric or `-`,
and purely numeric identifiers carry no leading zero. -/
def preIdOk (l : List Char) : Bool :=
  !l.isEmpty && l.all (fun c => c.isAlphanum || c = '-') &&
    (!(l.all (·.isDigit)) || noLeadingZero l)

/-- Parsed semver version.  The components are kept as their (validated,
canonical) digit strings: strict semver admits exactly one spelling of
each numeric component, so this is isomorphic to storing integers, and
re-serialization concatenates the components back. -/
structure VersionInfo where
  major : String
  minor : String
  patch : String
  prerelease : Option String
deriving DecidableEq

/-- Python `str(version_info)`: `major.minor.patch[-prerelease]`. -/
def serializeVersion (vi : VersionInfo) : String :=
  vi.major ++ "." ++ vi.minor ++ "." ++ vi.patch ++
    (match vi.prerelease with
     | none => ""
     | some p => "-" ++ p)

/-- Modelled from the spec: `semver.parse_version_info` (third-party
`semver` library, not part of this repository).  Per the spec the
normalizer parses "the full string as strict semver
(`major.minor.patch[-prerelease]`)"; parsing fails (`none`, modelling the
`ValueError` caught at `testable.py:27`) unless the string is exactly
three dot-separated canonical numeric components optionally followed by
`-` and a dot-separated list of prerelease identifiers. -/
def parse_version_info (s : String) : Option VersionInfo :=
  let cs := s.data
  let core := cs.takeWhile (· ≠ '-')
  match splitChar '.' core with
  | [a, b, c] =>
    if numericOk a && numericOk b && numericOk c then
      if core.length = cs.length then
        some ⟨String.mk a, String.mk b, String.mk c, none⟩
      else
        let pre := cs.drop (core.length + 1)
        if (splitChar '.' pre).all preIdOk then
          some ⟨String.mk a, String.mk b, String.mk c, some (String.mk pre)⟩
        else none
    else none
  | _ => none

/-- The `click.BadParameter` message raised at `testable.py:35-38`
(`value!r` renders with single quotes). -/
def ambiguousMsg (v : String) : String :=
  "Using a minor version ('" ++ v ++ "') is ambiguous. Use a release tag (e.g. '" ++
    v ++ ".1') or a release branch (e.g. '" ++ v ++ ".x') instead."

/-- The `click.BadParameter` message raised at `testable.py:28`. -/
def badFormatMsg : String := "needs to be in semver format M.m[.p[-r]]"

/-- `validate_version` (`testable.py:20-48`).  `Except.error` models a
raised `click.BadParameter`; `Except.ok` the returned string.
`ignore` is the `ignore` keyword argument (the `testable` command passes
`['origin/master']` for the target ref). -/
def validate_version (ignore : List String) (value : String) : Except String String :=
  if value ∈ ignore then .ok value
  else
    let parts := pySplitDot value
    if parts.length = 2 then .error (ambiguousMsg value)
    else if parts.length == 3 && parts.getLast? == some "x" then
      match parse_version_info (joinDot (parts.set 2 "0")) with
      | none => .error badFormatMsg
      | some vi => .ok (vi.major ++ "." ++ vi.minor ++ ".x")
    else
      match parse_version_info (joinDot parts) with
      | none => .error badFormatMsg
      | some vi => .ok (serializeVersion vi)

/-! ## Change Enumerator (`testable.py:181-183`)

`diff_data = [tuple(line.split(None, 1)) for line in
reversed(result.stdout.splitlines())]` — the external `git log` output
lists commits newest-first and is reversed into chronological order.
-/

/-- Python `line.split(None, 1)`: strip leading whitespace, cut one token
at the first whitespace run, strip the whitespace run, and return the
(possibly empty) remainder as the second element; empty results are
dropped exactly as Python does. -/
def pySplitNone1 (s : String) : List String :=
  let cs := s.data.dropWhile Char.isWhitespace
  if cs.isEmpty then []
  else
    let tok := cs.takeWhile (fun c => !c.isWhitespace)
    let rest := (cs.dropWhile (fun c => !c.isWhitespace)).dropWhile Char.isWhitespace
    if rest.isEmpty then [String.mk tok] else [String.mk tok, String.mk rest]

/-- The variable-length tuple built at `testable.py:182`, as a pair; a
missing subject becomes `""`. -/
def toPair : List String → String × String
  | [] => ("", "")
  | [h] => (h, "")
  | h :: s :: _ => (h, s)

/-- One line of `git --no-pager log "--pretty=format:%H %s"` output for a
(hash, subject) commit. -/
def renderLine (p : String × String) : String := p.1 ++ " " ++ p.2

/-- `testable.py:182`: the stdout lines (newest commit first) are
reversed and each line is split into a (hash, subject) pair. -/
def parseDiffLines (lines : List String) : List (String × String) :=
  (lines.reverse).map (fun line => toPair (pySplitNone1 line))

/-! ## Data model of the review loop (`testable.py:86-341`)

The external collaborators (GitHub, Trello, the keyboard) are modelled as
parameters; everything the command prints or does is recorded in an
explicit event trace.
-/

/-- Outcome of one `client.create_card` call (`trello.py` collaborator):
the `(rate_limited, error, response)` triple of `testable.py:61`. -/
inductive CardResp
  | rateLimited
  | errorResp (e : String)
  | success (url : String)
deriving DecidableEq

/-- Observable events of `create_trello_card` (`testable.py:51-83`). -/
inductive CEv
  | dryRunCard (team title : String)
  | rateWarn (attempt total waitSecs : Nat)
  | sleepEv (secs : Nat)
  | errWarn (attempt total waitSecs : Nat)
  | failMsg (e : String)
  | successMsg (team url : String)
deriving DecidableEq

/-- Observable events of the interactive prompt (`testable.py:287-329`):
one `render` per pass through the `while not finished` loop (the PR
block, the options text, the current `choice_error` warning and the
prompt), plus the echoed choice and skip/quit messages. -/
inductive PEv
  | render (i numChanges : Nat) (title choiceError : String)
  | echo (s : String)
  | skipMsg (commitId : String)
  | quitMsg (commitId : String)
deriving DecidableEq

/-- Observable events of the main loop (`testable.py:207-341`). -/
inductive Ev
  | fetchPr (id : String)
  | fetchHash (h : String)
  | abortMsg (m : String)
  | httpFailMsg (id : String)
  | notPrMsg (id : String)
  | dupSkip (id : String)
  | beginProcess (id : String)
  | docSkip (id : String)
  | milestoneSkip (id : String)
  | dispatch (teams : List String) (title : String)
  | card (e : CEv)
  | pe (e : PEv)
deriving DecidableEq

/-- A GitHub PR JSON payload restricted to the fields the command reads
(`number`, `html_url`, `title`, `user.login`, `body`, labels, milestone
title).  `none` models a missing key. -/
structure PrData where
  number : Option String := none
  html_url : Option String := none
  title : Option String := none
  user_login : Option String := none
  body : Option String := none
  labels : List String := []
  milestone : Option String := none
deriving DecidableEq

/-- The two repositories the command supports (`testable.py:144`). -/
inductive Repo
  | integrationsCore
  | datadogAgent
deriving DecidableEq

/-- The external world: GitHub lookups (status code plus payload; for the
commit search, `none` models a response without an `items` key and
`some l` the `items` list), the Trello label-to-team routing table, and
the Trello card-creation call (team, title, body, 0-based attempt). -/
structure Env where
  getPr : String → Nat × PrData
  getPrFromHash : String → Nat × Option (List PrData)
  labelTeamMap : String → Option String
  createCard : String → String → String → Nat → CardResp

/-- The command's run configuration: repository, `--milestone` filter
(`none` for absent) and `--dry-run` flag. -/
structure Cfg where
  repo : Repo
  milestone : Option String
  dryRun : Bool

/-- Modelled from the spec: `parse_pr_number` (`github.py` helper, not in
`src/`).  Per the spec it extracts the PR number when "the subject line
encodes a PR number": the digit run following the first `#`. -/
def parse_pr_number (subject : String) : Option String :=
  let after := (subject.data.dropWhile (· ≠ '#')).drop 1
  let digits := after.takeWhile Char.isDigit
  if digits.isEmpty then none else some (String.mk digits)

/-- Modelled from the spec: the `CHANGELOG_LABEL_PREFIX` constant
(`constants.py`, not in `src/`); per the spec's examples changelog-type
labels look like `changelog/no-changelog` and `changelog/Fixed`. -/
def changelogLabelStart : String := "changelog/"

/-- Modelled from the spec: the `CHANGELOG_TYPE_NONE` constant
(`constants.py`, not in `src/`): the explicit "none" changelog type
`no-changelog`. -/
def changelogTypeNone : String := "no-changelog"

/-- `label.startswith('documentation')` (`testable.py:257`). -/
def isDocLabel (l : String) : Bool := pyStartsWith l "documentation"

/-- `label.startswith(CHANGELOG_LABEL_PREFIX) and label.split('/', 1)[1]
!= CHANGELOG_TYPE_NONE` (`testable.py:260`): a changelog-type label other
than the explicit "none" type. -/
def isRealChangelogLabel (l : String) : Bool :=
  pyStartsWith l changelogLabelStart && afterFirstSlash l != changelogTypeNone

/-- The label filter of `testable.py:254-263`: after the loop,
`documentation_pr` is true iff some label starts with `documentation`,
and `nochangelog_pr` is true iff no label is a changelog-type label other
than the "none" type; the PR is skipped when both hold. -/
def docFilterSkip (labels : List String) : Bool :=
  labels.any isDocLabel && !(labels.any isRealChangelogLabel)

/-- `if milestone and pr_milestone != milestone` (`testable.py:268`). -/
def milestoneMismatch (want got : Option String) : Bool :=
  match want with
  | none => false
  | some msVal => msVal != "" && got != some msVal

/-- `basepath(root)` outcome as a string. -/
def repoName : Repo → String
  | .integrationsCore => "integrations-core"
  | .datadogAgent => "datadog-agent"

/-- The synthesized commit URL of `testable.py:244`. -/
def commitUrl (repo : Repo) (h : String) : String :=
  "https://github.com/DataDog/" ++ repoName repo ++ "/commit/" ++ h

/-- The fallback PR URL of `testable.py:272`. -/
def defaultPrUrl (repo : Repo) (cid : String) : String :=
  "https://github.com/DataDog/" ++ repoName repo ++ "/pull/" ++ cid

/-- The abort message of `testable.py:212` and `:229`. -/
def accessDeniedMsg : String :=
  "Access denied. Please ensure your GitHub token has correct permissions."

/-- Marker for the `requests.HTTPError` propagated by
`api_response.raise_for_status()` (`testable.py:223` and `:237`), which
is uncaught and kills the run. -/
def raiseForStatusMsg : String := "raise_for_status"

/-- `raise_for_status` raises exactly for 4xx/5xx status codes. -/
def httpFatal (status : Nat) : Bool := 400 ≤ status && status < 600

/-- Result of resolving one change to PR metadata
(`testable.py:208-246`), with the events emitted along the way. -/
inductive Resolved
  | fatalRes (evs : List Ev)
  | skipRes (evs : List Ev)
  | okRes (evs : List Ev) (commitId : String) (pr : PrData)
deriving DecidableEq

/-- The events of a `Resolved`. -/
def resolvedEvs : Resolved → List Ev
  | .fatalRes evs => evs
  | .skipRes evs => evs
  | .okRes evs _ _ => evs

/-- PR Resolver (`testable.py:208-246`): direct lookup when the subject
encodes a PR number (401 aborts, 403 and 404 skip the change, other
4xx/5xx propagate fatally), otherwise search by commit hash (401 aborts,
403 skips, 4xx/5xx propagate; an `items` list that is present but empty
raises `IndexError`, caught at `testable.py:241` and replaced by a
synthesized direct-commit record; a missing `items` key yields `{}` whose
missing `number` makes `commit_id = ''`). -/
def resolveChange (env : Env) (repo : Repo) (commitHash commitSubject : String) : Resolved :=
  match parse_pr_number commitSubject with
  | some cid =>
    let status := (env.getPr cid).1
    if status = 401 then .fatalRes [Ev.fetchPr cid, Ev.abortMsg accessDeniedMsg]
    else if status = 403 then .skipRes [Ev.fetchPr cid, Ev.httpFailMsg cid]
    else if status = 404 then .skipRes [Ev.fetchPr cid, Ev.notPrMsg cid]
    else if httpFatal status then .fatalRes [Ev.fetchPr cid, Ev.abortMsg raiseForStatusMsg]
    else .okRes [Ev.fetchPr cid] cid (env.getPr cid).2
  | none =>
    let status := (env.getPrFromHash commitHash).1
    if status = 401 then .fatalRes [Ev.fetchHash commitHash, Ev.abortMsg accessDeniedMsg]
    else if status = 403 then .skipRes [Ev.fetchHash commitHash, Ev.httpFailMsg commitHash]
    else if httpFatal status then
      .fatalRes [Ev.fetchHash commitHash, Ev.abortMsg raiseForStatusMsg]
    else
      match (env.getPrFromHash commitHash).2 with
      | none =>
        let pr : PrData := {}
        .okRes [Ev.fetchHash commitHash] (pr.number.getD "") pr
      | some [] =>
        let pr : PrData :=
          { number := some commitHash, html_url := some (commitUrl repo commitHash) }
        .okRes [Ev.fetchHash commitHash] (pr.number.getD "") pr
      | some (d :: _) => .okRes [Ev.fetchHash commitHash] (d.number.getD "") d

/-! ## Card Dispatcher (`create_trello_card`, `testable.py:51-83`) -/

/-- The retry loop `for attempt in range(3)` for one team
(`testable.py:60-83`), with `fuel` the number of remaining attempts
(including the current one).  A rate-limited response warns and sleeps 10
seconds (even on the final attempt) and retries; an error response on the
final attempt reports failure and stops, otherwise warns, sleeps 2
seconds and retries; success reports the created card and stops. -/
def attemptLoop (resp : Nat → CardResp) (team : String) : Nat → Nat → List CEv
  | _, 0 => []
  | attempt, fuel + 1 =>
    match resp attempt with
    | .rateLimited =>
      CEv.rateWarn (attempt + 1) 3 10 :: CEv.sleepEv 10 ::
        attemptLoop resp team (attempt + 1) fuel
    | .errorResp e =>
      if fuel = 0 then [CEv.failMsg e]
      else
        CEv.errWarn (attempt + 1) 3 2 :: CEv.sleepEv 2 ::
          attemptLoop resp team (attempt + 1) fuel
    | .success url => [CEv.successMsg team url]

/-- `create_trello_card` (`testable.py:51-83`): builds the card body and,
per team in order, either prints the dry-run line or runs the bounded
retry loop. -/
def create_trello_card (createCard : String → String → String → Nat → CardResp)
    (teams : List String) (prTitle prUrl prBody : String) (dryRun : Bool) : List CEv :=
  let body := "Pull request: " ++ prUrl ++ "\n\n" ++ prBody
  (teams.map (fun team =>
    if dryRun then [CEv.dryRunCard team prTitle]
    else attemptLoop (createCard team prTitle body) team 0 3)).flatten

/-! ## Options menu and interactive prompt (`testable.py:185-201, 282-341`) -/

/-- A repo-specific options menu: an ordered association list of
single-character keys to action names, nonempty by construction. -/
structure Menu where
  opts : List (String × String)
  ne : opts ≠ []

/-- The `integrations-core` menu (`testable.py:186`). -/
def icOptions : List (String × String) :=
  [("1", "Integrations"), ("2", "Containers"), ("3", "Core"), ("4", "Platform"),
    ("s", "Skip"), ("q", "Quit")]

/-- The `datadog-agent` menu (`testable.py:188-198`). -/
def agentOptions : List (String × String) :=
  [("1", "Core"), ("2", "Containers"), ("3", "Logs"), ("4", "Platform"),
    ("5", "Process"), ("6", "Trace"), ("7", "Integrations"), ("s", "Skip"), ("q", "Quit")]

/-- The menu selected at `testable.py:185-198`. -/
def menuFor : Repo → Menu
  | .integrationsCore => ⟨icOptions, by decide⟩
  | .datadogAgent => ⟨agentOptions, by decide⟩

/-- `choice in options` / `options[choice]` on the ordered menu. -/
def lookupOpt (opts : List (String × String)) (k : String) : Option String :=
  (opts.find? (fun p => p.1 == k)).map (fun p => p.2)

/-- Modelled from the spec: `get_next(options)` (`utils.py` helper, not
in `src/`) used at `testable.py:199`; per the spec "the first key is the
default when the user presses only Enter". -/
def defaultOption (m : Menu) : String := (m.opts.head m.ne).1

/-- The `choice_error` message set at `testable.py:323`. -/
def invalidMsg (c : String) : String := "`" ++ c ++ "` is not a valid option."

/-- The inner `while choice == '\x00'` read loop (`testable.py:313-316`):
keep reading (stripped) characters while they are the spurious null byte;
an exhausted input stream reads as `""` (the operator only pressing
Enter from then on). -/
def readChoice : List String → String × List String
  | [] => ("", [])
  | c :: rest => if pyStrip c = "\x00" then readChoice rest else (pyStrip c, rest)

/-- `testable.py:318-319`: an empty choice resolves to the default menu
option. -/
def chosenKey (m : Menu) (inputs : List String) : String :=
  if (readChoice inputs).1 = "" then defaultOption m else (readChoice inputs).1

/-- Outcome of the prompt loop for one PR. -/
inductive PromptOutcome
  | skipPR
  | quitRun
  | team (name : String)
deriving DecidableEq

/-- The `while not finished` interactive loop (`testable.py:287-341`),
excluding the card dispatch performed for a team choice (handled by the
caller): each pass renders the PR and prompt, reads a choice, and either
loops on an invalid choice (storing `choice_error`), or resolves to
Skip / Quit / a team name.  Returns the prompt events, the remaining
input stream, and the outcome. -/
def promptLoop (m : Menu) (i numChanges : Nat) (title commitId : String)
    (choiceError : String) (inputs : List String) :
    List PEv × List String × PromptOutcome :=
  if hv : (lookupOpt m.opts (chosenKey m inputs)).isSome then
    let v := (lookupOpt m.opts (chosenKey m inputs)).get hv
    if v = "Skip" then
      ([PEv.render i numChanges title choiceError, PEv.echo v, PEv.skipMsg commitId],
        (readChoice inputs).2, .skipPR)
    else if v = "Quit" then
      ([PEv.render i numChanges title choiceError, PEv.echo v, PEv.quitMsg commitId],
        (readChoice inputs).2, .quitRun)
    else
      ([PEv.render i numChanges title choiceError, PEv.echo v],
        (readChoice inputs).2, .team v)
  else
    let r := promptLoop m i numChanges title commitId
      (invalidMsg (chosenKey m inputs)) (readChoice inputs).2
    (PEv.render i numChanges title choiceError :: PEv.echo (chosenKey m inputs) :: r.1,
      r.2.1, r.2.2)
termination_by inputs.length
decreasing_by
  have hlt : ∀ (l : List String), (readChoice l).1 ≠ "" → (readChoice l).2.length < l.length := by
    intro l
    induction l with
    | nil => intro h; simp [readChoice] at h
    | cons c rest ih =>
      intro h
      by_cases hc : pyStrip c = "\x00"
      · simp only [readChoice, if_pos hc] at h ⊢
        exact Nat.lt_trans (ih h) (Nat.lt_succ_self _)
      · simp only [readChoice, if_neg hc]
        exact Nat.lt_succ_self _
  have hdflt : (lookupOpt m.opts (defaultOption m)).isSome = true := by
    rcases m with ⟨opts, hne⟩
    cases opts with
    | nil => exact absurd rfl hne
    | cons p rest => simp [lookupOpt, defaultOption, List.find?]
  have hcne : (readChoice inputs).1 ≠ "" := by
    intro h0
    apply hv
    unfold chosenKey
    rw [if_pos h0]
    exact hdflt
  exact hlt inputs hcne

/-! ## Review loop (`testable.py:203-341`) -/

/-- Control outcome of processing one change. -/
inductive Control
  | next
  | quitRun
  | fatalStop
deriving DecidableEq

/-- `testable.py:253-341` after the dedup gate: label filter, milestone
filter, then auto-dispatch to all label-mapped teams, else the
interactive prompt (whose team choice dispatches a single card).
Returns the events, the remaining input stream, and the control
outcome. -/
def afterDedup (env : Env) (cfg : Cfg) (inputs : List String) (i numChanges : Nat)
    (commitSubject commitId : String) (pr : PrData) : List Ev × List String × Control :=
  let prLabels := sortStrings pr.labels
  if docFilterSkip prLabels then ([Ev.docSkip commitId], inputs, .next)
  else if milestoneMismatch cfg.milestone pr.milestone then
    ([Ev.milestoneSkip commitId], inputs, .next)
  else
    let prUrl := pr.html_url.getD (defaultPrUrl cfg.repo commitId)
    let prTitle := pr.title.getD commitSubject
    let prBody := pr.body.getD ""
    let teams := prLabels.filterMap env.labelTeamMap
    if teams = [] then
      let r := promptLoop (menuFor cfg.repo) i numChanges prTitle commitId "" inputs
      match r.2.2 with
      | .skipPR => (r.1.map Ev.pe, r.2.1, .next)
      | .quitRun => (r.1.map Ev.pe, r.2.1, .quitRun)
      | .team t =>
        (r.1.map Ev.pe ++ Ev.dispatch [t] prTitle ::
          (create_trello_card env.createCard [t] prTitle prUrl prBody cfg.dryRun).map Ev.card,
          r.2.1, .next)
    else
      (Ev.dispatch teams prTitle ::
        (create_trello_card env.createCard teams prTitle prUrl prBody cfg.dryRun).map Ev.card,
        inputs, .next)

/-- One iteration of `for i, (commit_hash, commit_subject) in
enumerate(diff_data, 1)` (`testable.py:207-341`): resolve the change,
apply the dedup gate of `testable.py:248-251` (a nonempty commit-id
already in the run-scoped set is skipped; otherwise the id — empty or
not — is added), then hand over to `afterDedup`.  Returns the events,
the updated seen-set, the remaining inputs and the control outcome. -/
def processChange (env : Env) (cfg : Cfg) (st : List String) (inputs : List String)
    (i numChanges : Nat) (commitHash commitSubject : String) :
    List Ev × List String × List String × Control :=
  match resolveChange env cfg.repo commitHash commitSubject with
  | .fatalRes evs => (evs, st, inputs, .fatalStop)
  | .skipRes evs => (evs, st, inputs, .next)
  | .okRes evs commitId pr =>
    if commitId ≠ "" ∧ commitId ∈ st then
      (evs ++ [Ev.dupSkip commitId], st, inputs, .next)
    else
      let st2 := if commitId ∈ st then st else commitId :: st
      let r := afterDedup env cfg inputs i numChanges commitSubject commitId pr
      (evs ++ Ev.beginProcess commitId :: r.1, st2, r.2.1, r.2.2)

/-- The whole review loop over the enumerated diff: threads the seen-set
and the input stream; `Control.quitRun` (the Quit option) and
`Control.fatalStop` (an abort or uncaught HTTP error) end the run. -/
def runLoop (env : Env) (cfg : Cfg) (numChanges : Nat) :
    List (Nat × String × String) → List String → List String → List Ev
  | [], _, _ => []
  | (i, commitHash, commitSubject) :: rest, st, inputs =>
    let r := processChange env cfg st inputs i numChanges commitHash commitSubject
    match r.2.2.2 with
    | .next => r.1 ++ runLoop env cfg numChanges rest r.2.1 r.2.2.1
    | .quitRun => r.1
    | .fatalStop => r.1

/-- The `testable` command from the diff stdout on: parse the git log
lines into chronological (hash, subject) pairs and run the review loop
with an empty seen-set. -/
def testableRun (env : Env) (cfg : Cfg) (stdoutLines : List String)
    (inputs : List String) : List Ev :=
  let diff := parseDiffLines stdoutLines
  runLoop env cfg diff.length (List.enumFrom 1 diff) [] inputs

/-! ## Concrete instances used by witnesses and counterexamples -/

/-- `integrations-core`, no milestone filter, no dry run. -/
def cfgIC : Cfg := ⟨Repo.integrationsCore, none, false⟩

/-- A documentation-only PR numbered 10. -/
def prDoc10 : PrData := { number := some "10", labels := ["documentation"] }

/-- A PR numbered 10 with one team-mapped label. -/
def prTeam10 : PrData := { number := some "10", labels := ["integration/foo"] }

/-- A world where every PR lookup returns the documentation PR 10. -/
def envDoc10 : Env :=
  ⟨fun _ => (200, prDoc10), fun _ => (200, some []), fun _ => none,
    fun _ _ _ _ => .success "u"⟩

/-- A world where every PR lookup returns PR 10 whose label routes to the
`Integrations` team. -/
def envTeam10 : Env :=
  ⟨fun _ => (200, prTeam10), fun _ => (200, some []),
    fun l => if l == "integration/foo" then some "Integrations" else none,
    fun _ _ _ _ => .success "u"⟩

/-- A world where the commit search returns a payload without an `items`
key, so the resolved record is `{}` and its commit-id is `""`. -/
def envEmptyId : Env :=
  ⟨fun _ => (200, {}), fun _ => (200, none), fun _ => none,
    fun _ _ _ _ => .success "u"⟩

/-! ## Lemmas about the string primitives -/

theorem splitChar_ne_nil (sep : Char) (l : List Char) : splitChar sep l ≠ [] := by
  cases l with
  | nil => simp [splitChar]
  | cons c rest =>
    unfold splitChar
    match h : splitChar sep rest with
    | [] => simp
    | g :: gs =>
      by_cases hc : c = sep <;> simp [hc]

theorem joinChar_splitChar (sep : Char) (l : List Char) :
    joinChar sep (splitChar sep l) = l := by
  induction l with
  | nil => simp [splitChar, joinChar]
  | cons c rest ih =>
    unfold splitChar
    match h : splitChar sep rest with
    | [] => exact absurd h (splitChar_ne_nil sep rest)
    | g :: gs =>
      rw [h] at ih
      by_cases hc : c = sep
      · subst hc
        simp only [if_pos rfl]
        cases gs with
        | nil => simpa [joinChar] using ih
        | cons g' gs' => simpa [joinChar] using ih
      · simp only [if_neg hc]
        cases gs with
        | nil => simpa [joinChar] using ih
        | cons g' gs' => simpa [joinChar] using ih

theorem splitChar_parts_no_sep (sep : Char) (l : List Char) :
    ∀ g ∈ splitChar sep l, sep ∉ g := by
  induction l with
  | nil => simp [splitChar]
  | cons c rest ih =>
    simp only [splitChar]
    match h : splitChar sep rest with
    | [] => exact absurd h (splitChar_ne_nil sep rest)
    | g :: gs =>
      rw [h] at ih
      by_cases hc : c = sep
      · simp only [if_pos hc]
        intro g' hg'
        rcases List.mem_cons.mp hg' with hg' | hg'
        · simp [hg']
        · exact ih _ hg'
      · simp only [if_neg hc]
        intro g' hg'
        rcases List.mem_cons.mp hg' with hg' | hg'
        · subst hg'
          intro hmem
          rcases List.mem_cons.mp hmem with hh | hh
          · exact hc hh.symm
          · exact ih g (List.mem_cons_self g gs) hh
        · exact ih g' (List.mem_cons_of_mem g hg')

theorem splitChar_append_nosep (sep : Char) (x l : List Char) (hx : sep ∉ x) :
    splitChar sep (x ++ l) = (x ++ (splitChar sep l).headI) :: (splitChar sep l).tail := by
  induction x with
  | nil =>
    simp only [List.nil_append]
    match h : splitChar sep l with
    | [] => exact absurd h (splitChar_ne_nil sep l)
    | g :: gs => simp [h]
  | cons c x ih =>
    have hc : c ≠ sep := fun h => hx (h ▸ List.mem_cons_self c x)
    have hx' : sep ∉ x := fun h => hx (List.mem_cons_of_mem _ h)
    simp only [List.cons_append, splitChar, List.append_eq]
    rw [ih hx']
    simp [hc]

theorem splitChar_nosep (sep : Char) (x : List Char) (hx : sep ∉ x) :
    splitChar sep x = [x] := by
  have := splitChar_append_nosep sep x [] hx
  simpa [splitChar] using this

theorem splitChar_sep_cons (sep : Char) (l : List Char) :
    splitChar sep (sep :: l) = [] :: splitChar sep l := by
  simp only [splitChar]
  match h : splitChar sep l with
  | [] => exact absurd h (splitChar_ne_nil sep l)
  | g :: gs => simp

theorem splitChar_append_sep_cons (sep : Char) (x l : List Char) (hx : sep ∉ x) :
    splitChar sep (x ++ sep :: l) = x :: splitChar sep l := by
  rw [splitChar_append_nosep sep x (sep :: l) hx, splitChar_sep_cons]
  match h : splitChar sep l with
  | [] => exact absurd h (splitChar_ne_nil sep l)
  | g :: gs => simp

theorem joinDot_data (parts : List String) :
    (joinDot parts).data = joinChar '.' (parts.map String.data) := by
  induction parts with
  | nil => rfl
  | cons x xs ih =>
    cases xs with
    | nil => rfl
    | cons y ys =>
      simp only [joinDot, List.map_cons, joinChar, String.data_append, ih]
      simp [joinChar]

theorem pySplitDot_map_data (s : String) :
    (pySplitDot s).map String.data = splitChar '.' s.data := by
  rw [pySplitDot, List.map_map]
  have h : String.data ∘ String.mk = id := rfl
  rw [h, List.map_id]

theorem joinDot_pySplitDot (s : String) : joinDot (pySplitDot s) = s := by
  apply String.ext
  rw [joinDot_data, pySplitDot_map_data, joinChar_splitChar]

theorem pySplitDot_parts_no_dot (s : String) :
    ∀ p ∈ pySplitDot s, '.' ∉ p.data := by
  intro p hp
  rcases List.mem_map.mp hp with ⟨g, hg, hgp⟩
  subst hgp
  exact splitChar_parts_no_sep '.' s.data g hg

/-! ## Lemmas about the semver model -/

theorem takeWhile_length_eq {α : Type} (p : α → Bool) (l : List α)
    (h : (l.takeWhile p).length = l.length) : l.takeWhile p = l := by
  induction l with
  | nil => rfl
  | cons a l ih =>
    rw [List.takeWhile_cons] at h ⊢
    by_cases hp : p a = true
    · simp only [if_pos hp] at h ⊢
      simp only [List.length_cons, Nat.succ_inj] at h
      rw [ih h]
    · simp only [if_neg hp] at h
      simp at h

theorem dropWhile_head_false {α : Type} (p : α → Bool) (l : List α) (x : α) (t : List α)
    (h : l.dropWhile p = x :: t) : p x = false := by
  induction l with
  | nil => simp [List.dropWhile] at h
  | cons a l ih =>
    rw [List.dropWhile_cons] at h
    by_cases hp : p a = true
    · rw [if_pos hp] at h
      exact ih h
    · rw [if_neg hp] at h
      cases h
      exact Bool.not_eq_true _ |>.mp hp

theorem numericOk_all_digits (l : List Char) (h : numericOk l = true) :
    ∀ c ∈ l, c.isDigit = true := by
  intro c hc
  have h1 : isDigitsOnly l = true := by
    simp only [numericOk, Bool.and_eq_true] at h
    exact h.1
  simp only [isDigitsOnly, Bool.and_eq_true, List.all_eq_true] at h1
  exact h1.2 c hc

theorem numericOk_no_dot (l : List Char) (h : numericOk l = true) : '.' ∉ l := by
  intro hmem
  have := numericOk_all_digits l h '.' hmem
  simp at this

theorem numericOk_ne_nil (l : List Char) (h : numericOk l = true) : l ≠ [] := by
  intro hl
  subst hl
  simp [numericOk, isDigitsOnly] at h

/-- The prerelease suffix of a parsed version, as a char list. -/
def preData : Option String → List Char
  | none => []
  | some p => '-' :: p.data

/-- Characterization of a successful semver parse: the components are
valid numeric strings and the input decomposes as
`major.minor.patch` followed by the (possibly empty) prerelease suffix. -/
theorem parse_version_info_char (s : String) (vi : VersionInfo)
    (h : parse_version_info s = some vi) :
    numericOk vi.major.data = true ∧ numericOk vi.minor.data = true ∧
    numericOk vi.patch.data = true ∧
    s.data = vi.major.data ++ '.' :: vi.minor.data ++ '.' :: vi.patch.data ++
      preData vi.prerelease := by
  simp only [parse_version_info] at h
  split at h
  case h_2 => exact absurd h (by simp)
  case h_1 a b c heq =>
    split at h
    case isFalse => exact absurd h (by simp)
    case isTrue hnum =>
      simp only [Bool.and_eq_true] at hnum
      obtain ⟨⟨ha, hb⟩, hc⟩ := hnum
      split at h
      case isTrue hlen =>
        -- no prerelease
        cases h
        refine ⟨ha, hb, hc, ?_⟩
        have hcore : s.data.takeWhile (· ≠ '-') = s.data :=
          takeWhile_length_eq _ _ hlen
        have hjoin := joinChar_splitChar '.' (s.data.takeWhile (· ≠ '-'))
        rw [heq] at hjoin
        simp only [joinChar] at hjoin
        simp only [preData, List.append_nil]
        rw [← hcore, ← hjoin]
        simp [List.cons_append, List.append_assoc]
      case isFalse hlen =>
        split at h
        case isFalse => exact absurd h (by simp)
        case isTrue hpre =>
          cases h
          refine ⟨ha, hb, hc, ?_⟩
          have hsplit := List.takeWhile_append_dropWhile (· ≠ '-') s.data
          have hne : s.data.dropWhile (· ≠ '-') ≠ [] := by
            intro h0
            apply hlen
            rw [h0, List.append_nil] at hsplit
            rw [hsplit]
          match hd : s.data.dropWhile (· ≠ '-') with
          | [] => exact absurd hd hne
          | x :: t =>
            have hx : x = '-' := by
              have := dropWhile_head_false (· ≠ '-') s.data x t hd
              simpa using this
            subst hx
            have hdecomp : s.data = s.data.takeWhile (· ≠ '-') ++ '-' :: t := by
              rw [← hd, hsplit]
            have hdrop : s.data.drop ((s.data.takeWhile (· ≠ '-')).length + 1) = t := by
              have haux : ((s.data.takeWhile (· ≠ '-')) ++ '-' :: t).drop
                  ((s.data.takeWhile (· ≠ '-')).length + 1) = t := by
                have h1 : (s.data.takeWhile (· ≠ '-')) ++ '-' :: t =
                    ((s.data.takeWhile (· ≠ '-')) ++ ['-']) ++ t := by simp
                have h2 : ((s.data.takeWhile (· ≠ '-')) ++ ['-']).length =
                    (s.data.takeWhile (· ≠ '-')).length + 1 := by simp
                rw [h1, ← h2, List.drop_left]
              rw [← hdecomp] at haux
              exact haux
            have hjoin := joinChar_splitChar '.' (s.data.takeWhile (· ≠ '-'))
            rw [heq] at hjoin
            simp only [joinChar] at hjoin
            simp only [preData, hdrop]
            conv_lhs => rw [hdecomp, ← hjoin]
            simp [List.append_assoc]

theorem serializeVersion_data (vi : VersionInfo) :
    (serializeVersion vi).data =
      vi.major.data ++ '.' :: vi.minor.data ++ '.' :: vi.patch.data ++
        preData vi.prerelease := by
  cases hp : vi.prerelease with
  | none =>
    simp [serializeVersion, hp, preData, String.data_append]
  | some p =>
    simp [serializeVersion, hp, preData, String.data_append]

/-- Round trip: re-serializing a successfully parsed semver string gives
back the input. -/
theorem serialize_parse_version_info (s : String) (vi : VersionInfo)
    (h : parse_version_info s = some vi) : serializeVersion vi = s := by
  obtain ⟨_, _, _, hdata⟩ := parse_version_info_char s vi h
  exact String.ext (by rw [serializeVersion_data, hdata])

theorem splitChar_semver3 (A B C : List Char)
    (hA : '.' ∉ A) (hB : '.' ∉ B) (hC : '.' ∉ C) :
    splitChar '.' (A ++ '.' :: (B ++ '.' :: C)) = [A, B, C] := by
  rw [splitChar_append_sep_cons '.' A _ hA, splitChar_append_sep_cons '.' B _ hB,
    splitChar_nosep '.' C hC]

theorem splitChar_semver_pre (A B C P : List Char)
    (hA : '.' ∉ A) (hB : '.' ∉ B) (hC : '.' ∉ C) :
    ∃ g gs, splitChar '.' P = g :: gs ∧
      splitChar '.' (A ++ '.' :: (B ++ '.' :: (C ++ '-' :: P))) =
        A :: B :: (C ++ '-' :: g) :: gs := by
  match hP : splitChar '.' P with
  | [] => exact absurd hP (splitChar_ne_nil '.' P)
  | g :: gs =>
    refine ⟨g, gs, rfl, ?_⟩
    rw [splitChar_append_sep_cons '.' A _ hA, splitChar_append_sep_cons '.' B _ hB]
    have hdp : splitChar '.' ('-' :: P) = ('-' :: g) :: gs := by
      simp only [splitChar]
      rw [hP]
      simp
    rw [splitChar_append_nosep '.' C ('-' :: P) hC, hdp]
    simp

theorem mkStr_ne_x (l : List Char) (h : 1 < l.length) : String.mk l ≠ "x" := by
  intro he
  have hd : l = ['x'] := congrArg String.data he
  rw [hd] at h
  simp at h

theorem numericOk_ne_x_str (l : List Char) (h : numericOk l = true) :
    String.mk l ≠ "x" := by
  intro he
  have hd : l = ['x'] := congrArg String.data he
  have := numericOk_all_digits l h 'x' (by rw [hd]; simp)
  simp at this

/-- Any string whose split has exactly the three parts `[M, m, "x"]`, with
`M.m.0` parsing as strict semver, normalizes to itself. -/
theorem validate_version_branch_x (ignore : List String) (v M m : String) (vi : VersionInfo)
    (hsplit : pySplitDot v = [M, m, "x"])
    (h : parse_version_info (joinDot [M, m, "0"]) = some vi) :
    validate_version ignore v = .ok v := by
  by_cases hin : v ∈ ignore
  · simp [validate_version, hin]
  · have hM : '.' ∉ M.data :=
      pySplitDot_parts_no_dot v M (by rw [hsplit]; simp)
    have hm : '.' ∉ m.data :=
      pySplitDot_parts_no_dot v m (by rw [hsplit]; simp)
    have hjd : (joinDot [M, m, "0"]).data = M.data ++ '.' :: (m.data ++ '.' :: ['0']) := by
      simp [joinDot, String.data_append]
    have hsplit2 : splitChar '.' (joinDot [M, m, "0"]).data = [M.data, m.data, ['0']] := by
      rw [hjd]
      exact splitChar_semver3 _ _ _ hM hm (by simp)
    obtain ⟨ha, hb, hc, hdata⟩ := parse_version_info_char _ vi h
    have hA := numericOk_no_dot _ ha
    have hB := numericOk_no_dot _ hb
    have hC := numericOk_no_dot _ hc
    have hMaj : vi.major = M ∧ vi.minor = m := by
      cases hp : vi.prerelease with
      | none =>
        rw [hp] at hdata
        simp only [preData, List.append_nil] at hdata
        have h2 : splitChar '.' (joinDot [M, m, "0"]).data =
            [vi.major.data, vi.minor.data, vi.patch.data] := by
          rw [hdata]
          have hform : vi.major.data ++ '.' :: vi.minor.data ++ '.' :: vi.patch.data =
              vi.major.data ++ '.' :: (vi.minor.data ++ '.' :: vi.patch.data) := by
            simp
          rw [hform]
          exact splitChar_semver3 _ _ _ hA hB hC
        rw [hsplit2] at h2
        injection h2 with e1 h2
        injection h2 with e2 h2
        exact ⟨String.ext e1.symm, String.ext e2.symm⟩
      | some p =>
        rw [hp] at hdata
        simp only [preData] at hdata
        obtain ⟨g, gs, hPsplit, hsp⟩ :=
          splitChar_semver_pre vi.major.data vi.minor.data vi.patch.data p.data hA hB hC
        have h2 : splitChar '.' (joinDot [M, m, "0"]).data =
            vi.major.data :: vi.minor.data :: (vi.patch.data ++ '-' :: g) :: gs := by
          rw [hdata]
          have hform : vi.major.data ++ '.' :: vi.minor.data ++ '.' :: vi.patch.data ++
              '-' :: p.data =
              vi.major.data ++ '.' :: (vi.minor.data ++ '.' :: (vi.patch.data ++ '-' :: p.data)) := by
            simp
          rw [hform]
          exact hsp
        rw [hsplit2] at h2
        injection h2 with e1 h2
        injection h2 with e2 h2
        injection h2 with e3 h2
        exfalso
        have hlen := congrArg List.length e3
        have hnn := numericOk_ne_nil _ hc
        simp [List.length_append] at hlen
        have hp0 : vi.patch.length = 0 := by omega
        have hll : vi.patch.data.length = 0 := hp0
        exact hnn (List.length_eq_zero.mp hll)
    have hv : v = joinDot [M, m, "x"] := by
      rw [← hsplit, joinDot_pySplitDot]
    simp only [validate_version, if_neg hin]
    rw [hsplit]
    rw [if_neg (show ¬([M, m, "x"] : List String).length = 2 by simp)]
    rw [if_pos (show (([M, m, "x"] : List String).length == 3 &&
        ([M, m, "x"] : List String).getLast? == some "x") = true by simp)]
    have hset : ([M, m, "x"] : List String).set 2 "0" = [M, m, "0"] := by
      simp [List.set]
    rw [hset, h]
    show Except.ok (vi.major ++ "." ++ vi.minor ++ ".x") = Except.ok v
    rw [hMaj.1, hMaj.2]
    apply congrArg
    apply String.ext
    rw [hv]
    simp [joinDot, String.data_append]

theorem strMkData (s : String) : String.mk s.data = s := rfl

/-- Any string accepted by the strict semver parser normalizes to itself. -/
theorem validate_version_full_semver (ignore : List String) (v : String) (vi : VersionInfo)
    (h : parse_version_info v = some vi) : validate_version ignore v = .ok v := by
  by_cases hin : v ∈ ignore
  · simp [validate_version, hin]
  · obtain ⟨ha, hb, hc, hdata⟩ := parse_version_info_char v vi h
    have hA := numericOk_no_dot _ ha
    have hB := numericOk_no_dot _ hb
    have hC := numericOk_no_dot _ hc
    have hCpos : 0 < vi.patch.data.length :=
      List.length_pos.mpr (numericOk_ne_nil _ hc)
    cases hp : vi.prerelease with
    | none =>
      rw [hp] at hdata
      simp only [preData, List.append_nil] at hdata
      have hform : vi.major.data ++ '.' :: vi.minor.data ++ '.' :: vi.patch.data =
          vi.major.data ++ '.' :: (vi.minor.data ++ '.' :: vi.patch.data) := by simp
      have hsplitv : splitChar '.' v.data =
          [vi.major.data, vi.minor.data, vi.patch.data] := by
        rw [hdata, hform]
        exact splitChar_semver3 _ _ _ hA hB hC
      have hparts : pySplitDot v = [vi.major, vi.minor, vi.patch] := by
        rw [pySplitDot, hsplitv]
        simp [strMkData]
      have hx : vi.patch ≠ "x" := by
        have := numericOk_ne_x_str _ hc
        rwa [strMkData] at this
      simp only [validate_version, if_neg hin]
      rw [hparts]
      rw [if_neg (show ¬([vi.major, vi.minor, vi.patch] : List String).length = 2 by simp)]
      rw [if_neg (show ¬((([vi.major, vi.minor, vi.patch] : List String).length == 3 &&
          ([vi.major, vi.minor, vi.patch] : List String).getLast? == some "x") = true) by
        simp [hx])]
      have hjoinv : joinDot [vi.major, vi.minor, vi.patch] = v := by
        have := joinDot_pySplitDot v
        rwa [hparts] at this
      rw [hjoinv, h]
      show Except.ok (serializeVersion vi) = Except.ok v
      rw [serialize_parse_version_info v vi h]
    | some p =>
      rw [hp] at hdata
      simp only [preData] at hdata
      obtain ⟨g, gs, hPsplit, hsp⟩ :=
        splitChar_semver_pre vi.major.data vi.minor.data vi.patch.data p.data hA hB hC
      have hform : vi.major.data ++ '.' :: vi.minor.data ++ '.' :: vi.patch.data ++
          '-' :: p.data =
          vi.major.data ++ '.' :: (vi.minor.data ++ '.' :: (vi.patch.data ++ '-' :: p.data)) := by
        simp
      have hsplitv : splitChar '.' v.data =
          vi.major.data :: vi.minor.data :: (vi.patch.data ++ '-' :: g) :: gs := by
        rw [hdata, hform]
        exact hsp
      have hparts : pySplitDot v =
          vi.major :: vi.minor :: String.mk (vi.patch.data ++ '-' :: g) :: gs.map String.mk := by
        rw [pySplitDot, hsplitv]
        simp [strMkData]
      have hz : String.mk (vi.patch.data ++ '-' :: g) ≠ "x" := by
        apply mkStr_ne_x
        simp only [List.length_append, List.length_cons]
        omega
      have hguard : ((vi.major :: vi.minor :: String.mk (vi.patch.data ++ '-' :: g) ::
          gs.map String.mk).length == 3 &&
          (vi.major :: vi.minor :: String.mk (vi.patch.data ++ '-' :: g) ::
          gs.map String.mk).getLast? == some "x") = false := by
        cases hgs : gs with
        | nil => simp [hz]
        | cons g2 rest => simp
      simp only [validate_version, if_neg hin]
      rw [hparts]
      rw [if_neg (show ¬(vi.major :: vi.minor :: String.mk (vi.patch.data ++ '-' :: g) ::
          gs.map String.mk).length = 2 by simp)]
      rw [if_neg (show ¬(((vi.major :: vi.minor :: String.mk (vi.patch.data ++ '-' :: g) ::
          gs.map String.mk).length == 3 &&
          (vi.major :: vi.minor :: String.mk (vi.patch.data ++ '-' :: g) ::
          gs.map String.mk).getLast? == some "x") = true) by rw [hguard]; simp)]
      have hjoinv : joinDot (vi.major :: vi.minor :: String.mk (vi.patch.data ++ '-' :: g) ::
          gs.map String.mk) = v := by
        have := joinDot_pySplitDot v
        rwa [hparts] at this
      rw [hjoinv, h]
      show Except.ok (serializeVersion vi) = Except.ok v
      rw [serialize_parse_version_info v vi h]

/-! ## Claims about the Version Reference Normalizer -/

/-- Claim C4: for every version string with exactly two dot-separated
components that is not in the ignore-list, normalization fails with the
"minor version is ambiguous" error (which suggests the patch-tag form
`v.1` and the release-branch form `v.x`), and never returns a value. -/
theorem c4_minor_version_ambiguous (ignore : List String) (v : String)
    (hin : v ∉ ignore) (hlen : (pySplitDot v).length = 2) :
    validate_version ignore v = .error (ambiguousMsg v) := by
  simp only [validate_version, if_neg hin]
  rw [if_pos hlen]

/-- Witness for C4 at the concrete input `7.16`. -/
theorem c4_minor_version_ambiguous_witness :
    ("7.16" ∉ (["origin/master"] : List String)) ∧
    (pySplitDot "7.16").length = 2 ∧
    validate_version ["origin/master"] "7.16" = .error (ambiguousMsg "7.16") :=
  ⟨by decide, by decide,
    c4_minor_version_ambiguous ["origin/master"] "7.16" (by decide) (by decide)⟩

/-- Claim C5: normalization is a round trip on well-formed inputs.  For
every string splitting as `[M, m, "x"]` such that `M.m.0` is valid
semver, it returns the input unchanged; and for every strict full-semver
string (`major.minor.patch` with optional prerelease, i.e. any string the
semver parser accepts) it returns the input itself. -/
theorem c5_normalization_round_trip :
    (∀ (ignore : List String) (v M m : String) (vi : VersionInfo),
        pySplitDot v = [M, m, "x"] →
        parse_version_info (joinDot [M, m, "0"]) = some vi →
        validate_version ignore v = .ok v) ∧
    (∀ (ignore : List String) (v : String) (vi : VersionInfo),
        parse_version_info v = some vi →
        validate_version ignore v = .ok v) :=
  ⟨validate_version_branch_x, validate_version_full_semver⟩

/-- Witness for C5 at the concrete inputs `7.17.x` and `7.17.0-rc.2`. -/
theorem c5_normalization_round_trip_witness :
    validate_version [] "7.17.x" = .ok "7.17.x" ∧
    validate_version [] "7.17.0-rc.2" = .ok "7.17.0-rc.2" :=
  ⟨c5_normalization_round_trip.1 [] "7.17.x" "7" "17" ⟨"7", "17", "0", none⟩
      (by decide) (by decide),
    c5_normalization_round_trip.2 [] "7.17.0-rc.2" ⟨"7", "17", "0", some "rc.2"⟩
      (by decide)⟩

/-! ## Lemmas about the review loop -/

theorem resolveChange_evs_cases (env : Env) (repo : Repo) (commitHash commitSubject : String) :
    ∀ e ∈ resolvedEvs (resolveChange env repo commitHash commitSubject),
      (∃ x, e = Ev.fetchPr x) ∨ (∃ x, e = Ev.fetchHash x) ∨ (∃ x, e = Ev.abortMsg x) ∨
        (∃ x, e = Ev.httpFailMsg x) ∨ (∃ x, e = Ev.notPrMsg x) := by
  intro e he
  cases hp : parse_pr_number commitSubject <;> simp only [resolveChange, hp] at he <;>
    repeat' split at he
  all_goals simp only [resolvedEvs, List.mem_cons, List.not_mem_nil, or_false] at he
  all_goals first
    | subst he
    | rcases he with rfl | rfl
  all_goals simp

theorem afterDedup_ev_shapes (env : Env) (cfg : Cfg) (inputs : List String)
    (i numChanges : Nat) (subj cid : String) (pr : PrData) :
    ∀ e ∈ (afterDedup env cfg inputs i numChanges subj cid pr).1,
      (∃ x, e = Ev.docSkip x) ∨ (∃ x, e = Ev.milestoneSkip x) ∨
        (∃ ts t, e = Ev.dispatch ts t) ∨ (∃ c, e = Ev.card c) ∨ (∃ p, e = Ev.pe p) := by
  intro e he
  simp only [afterDedup] at he
  repeat' split at he
  all_goals simp only [List.mem_cons, List.not_mem_nil, or_false, List.mem_append,
    List.mem_map, List.mem_singleton] at he
  · subst he; simp
  · subst he; simp
  · obtain ⟨p, _, rfl⟩ := he; simp
  · obtain ⟨p, _, rfl⟩ := he; simp
  · rcases he with ⟨p, _, rfl⟩ | rfl | ⟨c, _, rfl⟩ <;> simp
  · rcases he with rfl | ⟨c, _, rfl⟩ <;> simp

theorem resolvedEvs_not_mem_begin (env : Env) (repo : Repo) (h s x : String) :
    Ev.beginProcess x ∉ resolvedEvs (resolveChange env repo h s) := by
  intro hmem
  rcases resolveChange_evs_cases env repo h s _ hmem with
    ⟨y, hy⟩ | ⟨y, hy⟩ | ⟨y, hy⟩ | ⟨y, hy⟩ | ⟨y, hy⟩ <;> simp at hy

theorem resolvedEvs_not_mem_dupSkip (env : Env) (repo : Repo) (h s x : String) :
    Ev.dupSkip x ∉ resolvedEvs (resolveChange env repo h s) := by
  intro hmem
  rcases resolveChange_evs_cases env repo h s _ hmem with
    ⟨y, hy⟩ | ⟨y, hy⟩ | ⟨y, hy⟩ | ⟨y, hy⟩ | ⟨y, hy⟩ <;> simp at hy

theorem resolvedEvs_not_mem_pe (env : Env) (repo : Repo) (h s : String) (p : PEv) :
    Ev.pe p ∉ resolvedEvs (resolveChange env repo h s) := by
  intro hmem
  rcases resolveChange_evs_cases env repo h s _ hmem with
    ⟨y, hy⟩ | ⟨y, hy⟩ | ⟨y, hy⟩ | ⟨y, hy⟩ | ⟨y, hy⟩ <;> simp at hy

theorem afterDedup_not_mem_begin (env : Env) (cfg : Cfg) (inputs : List String)
    (i numChanges : Nat) (subj cid : String) (pr : PrData) (x : String) :
    Ev.beginProcess x ∉ (afterDedup env cfg inputs i numChanges subj cid pr).1 := by
  intro hmem
  rcases afterDedup_ev_shapes env cfg inputs i numChanges subj cid pr _ hmem with
    ⟨y, hy⟩ | ⟨y, hy⟩ | ⟨ts, t, hy⟩ | ⟨c, hy⟩ | ⟨p, hy⟩ <;> simp at hy

theorem afterDedup_not_mem_dupSkip (env : Env) (cfg : Cfg) (inputs : List String)
    (i numChanges : Nat) (subj cid : String) (pr : PrData) (x : String) :
    Ev.dupSkip x ∉ (afterDedup env cfg inputs i numChanges subj cid pr).1 := by
  intro hmem
  rcases afterDedup_ev_shapes env cfg inputs i numChanges subj cid pr _ hmem with
    ⟨y, hy⟩ | ⟨y, hy⟩ | ⟨ts, t, hy⟩ | ⟨c, hy⟩ | ⟨p, hy⟩ <;> simp at hy

theorem afterDedup_docskip (env : Env) (cfg : Cfg) (inputs : List String)
    (i numChanges : Nat) (subj cid : String) (pr : PrData)
    (hdoc : docFilterSkip (sortStrings pr.labels) = true) :
    afterDedup env cfg inputs i numChanges subj cid pr =
      ([Ev.docSkip cid], inputs, Control.next) := by
  simp only [afterDedup, hdoc]
  simp

theorem afterDedup_milestoneskip (env : Env) (cfg : Cfg) (inputs : List String)
    (i numChanges : Nat) (subj cid : String) (pr : PrData)
    (hdoc : docFilterSkip (sortStrings pr.labels) = false)
    (hms : milestoneMismatch cfg.milestone pr.milestone = true) :
    afterDedup env cfg inputs i numChanges subj cid pr =
      ([Ev.milestoneSkip cid], inputs, Control.next) := by
  simp only [afterDedup]
  rw [if_neg (by simp [hdoc]), if_pos hms]

theorem afterDedup_dispatch (env : Env) (cfg : Cfg) (inputs : List String)
    (i numChanges : Nat) (subj cid : String) (pr : PrData)
    (hdoc : docFilterSkip (sortStrings pr.labels) = false)
    (hms : milestoneMismatch cfg.milestone pr.milestone = false)
    (hteams : (sortStrings pr.labels).filterMap env.labelTeamMap ≠ []) :
    afterDedup env cfg inputs i numChanges subj cid pr =
      (Ev.dispatch ((sortStrings pr.labels).filterMap env.labelTeamMap) (pr.title.getD subj) ::
        (create_trello_card env.createCard ((sortStrings pr.labels).filterMap env.labelTeamMap)
          (pr.title.getD subj) (pr.html_url.getD (defaultPrUrl cfg.repo cid))
          (pr.body.getD "") cfg.dryRun).map Ev.card,
        inputs, Control.next) := by
  simp only [afterDedup]
  rw [if_neg (by simp [hdoc]), if_neg (by simp [hms]), if_neg hteams]

theorem afterDedup_next_of_teams (env : Env) (cfg : Cfg) (inputs : List String)
    (i numChanges : Nat) (subj cid : String) (pr : PrData)
    (hteams : (sortStrings pr.labels).filterMap env.labelTeamMap ≠ []) :
    (afterDedup env cfg inputs i numChanges subj cid pr).2.2 = Control.next ∧
    (afterDedup env cfg inputs i numChanges subj cid pr).2.1 = inputs := by
  by_cases hdoc : docFilterSkip (sortStrings pr.labels) = true
  · rw [afterDedup_docskip env cfg inputs i numChanges subj cid pr hdoc]
    exact ⟨rfl, rfl⟩
  · have hdoc' : docFilterSkip (sortStrings pr.labels) = false := by simpa using hdoc
    by_cases hms : milestoneMismatch cfg.milestone pr.milestone = true
    · rw [afterDedup_milestoneskip env cfg inputs i numChanges subj cid pr hdoc' hms]
      exact ⟨rfl, rfl⟩
    · have hms' : milestoneMismatch cfg.milestone pr.milestone = false := by simpa using hms
      rw [afterDedup_dispatch env cfg inputs i numChanges subj cid pr hdoc' hms' hteams]
      exact ⟨rfl, rfl⟩

theorem processChange_dup (env : Env) (cfg : Cfg) (st inputs : List String)
    (i numChanges : Nat) (h s : String) (evs : List Ev) (cid : String) (pr : PrData)
    (hres : resolveChange env cfg.repo h s = .okRes evs cid pr)
    (hcid : cid ≠ "") (hmem : cid ∈ st) :
    processChange env cfg st inputs i numChanges h s =
      (evs ++ [Ev.dupSkip cid], st, inputs, Control.next) := by
  simp only [processChange, hres]
  rw [if_pos ⟨hcid, hmem⟩]

theorem processChange_ok (env : Env) (cfg : Cfg) (st inputs : List String)
    (i numChanges : Nat) (h s : String) (evs : List Ev) (cid : String) (pr : PrData)
    (hres : resolveChange env cfg.repo h s = .okRes evs cid pr)
    (hdup : ¬(cid ≠ "" ∧ cid ∈ st)) :
    processChange env cfg st inputs i numChanges h s =
      (evs ++ Ev.beginProcess cid :: (afterDedup env cfg inputs i numChanges s cid pr).1,
        if cid ∈ st then st else cid :: st,
        (afterDedup env cfg inputs i numChanges s cid pr).2.1,
        (afterDedup env cfg inputs i numChanges s cid pr).2.2) := by
  simp only [processChange, hres]
  rw [if_neg hdup]

theorem resolved_not_mem_begin (env : Env) (repo : Repo) (h s x : String)
    (r : Resolved) (hr : resolveChange env repo h s = r) :
    Ev.beginProcess x ∉ resolvedEvs r := by
  rw [← hr]
  exact resolvedEvs_not_mem_begin env repo h s x

theorem processChange_count_begin_le_one (env : Env) (cfg : Cfg) (st inputs : List String)
    (i numChanges : Nat) (h s x : String) :
    (processChange env cfg st inputs i numChanges h s).1.count (Ev.beginProcess x) ≤ 1 := by
  rcases hres : resolveChange env cfg.repo h s with evs | evs | ⟨evs, cid, pr⟩
  · have heq : processChange env cfg st inputs i numChanges h s =
        (evs, st, inputs, .fatalStop) := by
      simp only [processChange, hres]
    rw [heq]
    have h1 : Ev.beginProcess x ∉ evs := resolved_not_mem_begin env cfg.repo h s x _ hres
    simp [List.count_eq_zero.mpr h1]
  · have heq : processChange env cfg st inputs i numChanges h s =
        (evs, st, inputs, .next) := by
      simp only [processChange, hres]
    rw [heq]
    have h1 : Ev.beginProcess x ∉ evs := resolved_not_mem_begin env cfg.repo h s x _ hres
    simp [List.count_eq_zero.mpr h1]
  · have h1 : Ev.beginProcess x ∉ evs := resolved_not_mem_begin env cfg.repo h s x _ hres
    by_cases hdup : cid ≠ "" ∧ cid ∈ st
    · rw [processChange_dup env cfg st inputs i numChanges h s evs cid pr hres hdup.1 hdup.2]
      simp [List.count_append, List.count_eq_zero.mpr h1, List.count_singleton]
    · rw [processChange_ok env cfg st inputs i numChanges h s evs cid pr hres hdup]
      have h2 : Ev.beginProcess x ∉
          (afterDedup env cfg inputs i numChanges s cid pr).1 :=
        afterDedup_not_mem_begin env cfg inputs i numChanges s cid pr x
      simp only [List.count_append, List.count_cons, List.count_eq_zero.mpr h1,
        List.count_eq_zero.mpr h2]
      split <;> simp

theorem processChange_state_superset (env : Env) (cfg : Cfg) (st inputs : List String)
    (i numChanges : Nat) (h s : String) :
    ∀ x ∈ st, x ∈ (processChange env cfg st inputs i numChanges h s).2.1 := by
  intro x hx
  rcases hres : resolveChange env cfg.repo h s with evs | evs | ⟨evs, cid, pr⟩
  · simp only [processChange, hres]
    exact hx
  · simp only [processChange, hres]
    exact hx
  · by_cases hdup : cid ≠ "" ∧ cid ∈ st
    · rw [processChange_dup env cfg st inputs i numChanges h s evs cid pr hres hdup.1 hdup.2]
      exact hx
    · rw [processChange_ok env cfg st inputs i numChanges h s evs cid pr hres hdup]
      by_cases hmem : cid ∈ st
      · simpa [hmem] using hx
      · simp only [if_neg hmem]
        exact List.mem_cons_of_mem _ hx

theorem processChange_count_begin_zero_of_mem (env : Env) (cfg : Cfg)
    (st inputs : List String) (i numChanges : Nat) (h s x : String)
    (hx : x ≠ "") (hmem : x ∈ st) :
    (processChange env cfg st inputs i numChanges h s).1.count (Ev.beginProcess x) = 0 := by
  rcases hres : resolveChange env cfg.repo h s with evs | evs | ⟨evs, cid, pr⟩
  · have heq : processChange env cfg st inputs i numChanges h s =
        (evs, st, inputs, .fatalStop) := by
      simp only [processChange, hres]
    rw [heq]
    exact List.count_eq_zero.mpr (resolved_not_mem_begin env cfg.repo h s x _ hres)
  · have heq : processChange env cfg st inputs i numChanges h s =
        (evs, st, inputs, .next) := by
      simp only [processChange, hres]
    rw [heq]
    exact List.count_eq_zero.mpr (resolved_not_mem_begin env cfg.repo h s x _ hres)
  · have h1 : Ev.beginProcess x ∉ evs := resolved_not_mem_begin env cfg.repo h s x _ hres
    by_cases hdup : cid ≠ "" ∧ cid ∈ st
    · rw [processChange_dup env cfg st inputs i numChanges h s evs cid pr hres hdup.1 hdup.2]
      simp [List.count_append, List.count_eq_zero.mpr h1, List.count_singleton]
    · rw [processChange_ok env cfg st inputs i numChanges h s evs cid pr hres hdup]
      have hne : cid ≠ x := by
        intro hcx
        exact hdup ⟨hcx ▸ hx, hcx ▸ hmem⟩
      have h2 : Ev.beginProcess x ∉
          (afterDedup env cfg inputs i numChanges s cid pr).1 :=
        afterDedup_not_mem_begin env cfg inputs i numChanges s cid pr x
      simp [List.count_append, List.count_cons, List.count_eq_zero.mpr h1,
        List.count_eq_zero.mpr h2, hne]

theorem processChange_mem_of_count_begin_pos (env : Env) (cfg : Cfg)
    (st inputs : List String) (i numChanges : Nat) (h s x : String)
    (hpos : 0 < (processChange env cfg st inputs i numChanges h s).1.count (Ev.beginProcess x)) :
    x ∈ (processChange env cfg st inputs i numChanges h s).2.1 := by
  rcases hres : resolveChange env cfg.repo h s with evs | evs | ⟨evs, cid, pr⟩
  · exfalso
    have heq : processChange env cfg st inputs i numChanges h s =
        (evs, st, inputs, .fatalStop) := by
      simp only [processChange, hres]
    have h1 : Ev.beginProcess x ∉ evs := resolved_not_mem_begin env cfg.repo h s x _ hres
    rw [heq] at hpos
    simp [List.count_eq_zero.mpr h1] at hpos
  · exfalso
    have heq : processChange env cfg st inputs i numChanges h s =
        (evs, st, inputs, .next) := by
      simp only [processChange, hres]
    have h1 : Ev.beginProcess x ∉ evs := resolved_not_mem_begin env cfg.repo h s x _ hres
    rw [heq] at hpos
    simp [List.count_eq_zero.mpr h1] at hpos
  · have h1 : Ev.beginProcess x ∉ evs := resolved_not_mem_begin env cfg.repo h s x _ hres
    by_cases hdup : cid ≠ "" ∧ cid ∈ st
    · exfalso
      rw [processChange_dup env cfg st inputs i numChanges h s evs cid pr hres
        hdup.1 hdup.2] at hpos
      simp [List.count_append, List.count_eq_zero.mpr h1, List.count_singleton] at hpos
    · rw [processChange_ok env cfg st inputs i numChanges h s evs cid pr hres hdup] at hpos ⊢
      have h2 : Ev.beginProcess x ∉
          (afterDedup env cfg inputs i numChanges s cid pr).1 :=
        afterDedup_not_mem_begin env cfg inputs i numChanges s cid pr x
      have hcx : cid = x := by
        by_contra hne
        rw [List.count_append, List.count_cons, List.count_eq_zero.mpr h1,
          List.count_eq_zero.mpr h2] at hpos
        simp [hne] at hpos
      subst hcx
      by_cases hmem : cid ∈ st
      · simp [hmem]
      · simp [hmem]

theorem runLoop_count_begin_zero (env : Env) (cfg : Cfg) (numChanges : Nat) (x : String)
    (hx : x ≠ "") :
    ∀ (diff : List (Nat × String × String)) (st inputs : List String), x ∈ st →
      (runLoop env cfg numChanges diff st inputs).count (Ev.beginProcess x) = 0 := by
  intro diff
  induction diff with
  | nil =>
    intro st inputs _
    simp [runLoop]
  | cons chg rest ih =>
    rcases chg with ⟨i, h, s⟩
    intro st inputs hmem
    simp only [runLoop]
    cases hctl : (processChange env cfg st inputs i numChanges h s).2.2.2 with
    | next =>
      simp only [hctl]
      rw [List.count_append,
        processChange_count_begin_zero_of_mem env cfg st inputs i numChanges h s x hx hmem,
        ih _ _ (processChange_state_superset env cfg st inputs i numChanges h s x hmem)]
    | quitRun =>
      simp only [hctl]
      exact processChange_count_begin_zero_of_mem env cfg st inputs i numChanges h s x hx hmem
    | fatalStop =>
      simp only [hctl]
      exact processChange_count_begin_zero_of_mem env cfg st inputs i numChanges h s x hx hmem

theorem runLoop_count_begin_le_one (env : Env) (cfg : Cfg) (numChanges : Nat) (x : String)
    (hx : x ≠ "") :
    ∀ (diff : List (Nat × String × String)) (st inputs : List String),
      (runLoop env cfg numChanges diff st inputs).count (Ev.beginProcess x) ≤ 1 := by
  intro diff
  induction diff with
  | nil =>
    intro st inputs
    simp [runLoop]
  | cons chg rest ih =>
    rcases chg with ⟨i, h, s⟩
    intro st inputs
    simp only [runLoop]
    cases hctl : (processChange env cfg st inputs i numChanges h s).2.2.2 with
    | next =>
      simp only [hctl]
      rw [List.count_append]
      by_cases hz : (processChange env cfg st inputs i numChanges h s).1.count
          (Ev.beginProcess x) = 0
      · rw [hz]
        simpa using ih _ _
      · have hle := processChange_count_begin_le_one env cfg st inputs i numChanges h s x
        have hmem' := processChange_mem_of_count_begin_pos env cfg st inputs i numChanges h s x
          (Nat.pos_of_ne_zero hz)
        have htail := runLoop_count_begin_zero env cfg numChanges x hx rest
          (processChange env cfg st inputs i numChanges h s).2.1
          (processChange env cfg st inputs i numChanges h s).2.2.1 hmem'
        omega
    | quitRun =>
      simp only [hctl]
      exact processChange_count_begin_le_one env cfg st inputs i numChanges h s x
    | fatalStop =>
      simp only [hctl]
      exact processChange_count_begin_le_one env cfg st inputs i numChanges h s x

/-! ## Claims about the review loop -/

/-- Claim C2 counterexample: with both diff entries resolving to PR 10,
`get_pr` is called twice for the same commit-id — the dedup check at
`testable.py:248` runs only after the fetch, so metadata is NOT fetched
at most once per unique commit-id, and an id already in the dedup set is
fetched again before being skipped. -/
theorem c2_counterexample_refetch :
    (runLoop envDoc10 cfgIC 2
      [(1, "h1", "Fixes #10"), (2, "h2", "Fixes #10")] [] []).count (Ev.fetchPr "10") = 2 := by
  decide

/-- Claim C2 (amended): PR metadata is fetched once per change, so a
commit-id referenced by several changes is fetched again each time; the
run-scoped dedup set instead guarantees that every unique non-empty
commit-id passes the dedup gate (is filtered/dispatched/prompted) at most
once in the whole run. -/
theorem c2_amended_processed_once (env : Env) (cfg : Cfg) (numChanges : Nat)
    (diff : List (Nat × String × String)) (st inputs : List String) (x : String)
    (hx : x ≠ "") :
    (runLoop env cfg numChanges diff st inputs).count (Ev.beginProcess x) ≤ 1 :=
  runLoop_count_begin_le_one env cfg numChanges x hx diff st inputs

/-- Witness for the amended C2 on the two-change diff. -/
theorem c2_amended_processed_once_witness :
    (runLoop envDoc10 cfgIC 2
      [(1, "h1", "Fixes #10"), (2, "h2", "Fixes #10")] [] []).count (Ev.beginProcess "10") ≤ 1 :=
  c2_amended_processed_once envDoc10 cfgIC 2
    [(1, "h1", "Fixes #10"), (2, "h2", "Fixes #10")] [] [] "10" (by decide)

/-- Claim C10: a record whose resolved commit-id is the empty string
bypasses duplicate detection — it is never skipped as a duplicate no
matter what the run-scoped seen-set contains (in particular even when
`""` is already in it), it is processed past the dedup gate, and the
empty id is still added to the seen-set. -/
theorem c10_empty_commit_id_bypasses_dedup (env : Env) (cfg : Cfg)
    (st inputs : List String) (i numChanges : Nat) (h s : String)
    (evs : List Ev) (pr : PrData)
    (hres : resolveChange env cfg.repo h s = .okRes evs "" pr) :
    Ev.dupSkip "" ∉ (processChange env cfg st inputs i numChanges h s).1 ∧
    Ev.beginProcess "" ∈ (processChange env cfg st inputs i numChanges h s).1 ∧
    "" ∈ (processChange env cfg st inputs i numChanges h s).2.1 := by
  have hdup : ¬(("" : String) ≠ "" ∧ ("" : String) ∈ st) := by simp
  rw [processChange_ok env cfg st inputs i numChanges h s evs "" pr hres hdup]
  refine ⟨?_, ?_, ?_⟩
  · intro hmem
    rcases List.mem_append.mp hmem with hmem | hmem
    · have h0 : Ev.dupSkip "" ∉ evs := by
        have h1 := resolvedEvs_not_mem_dupSkip env cfg.repo h s ""
        rw [hres] at h1
        exact h1
      exact h0 hmem
    · rcases List.mem_cons.mp hmem with hmem | hmem
      · exact absurd hmem (by simp)
      · exact afterDedup_not_mem_dupSkip env cfg inputs i numChanges s "" pr "" hmem
  · exact List.mem_append.mpr (Or.inr (List.mem_cons_self _ _))
  · by_cases hmem : ("" : String) ∈ st
    · simp [hmem]
    · simp [hmem]

/-- Witness for C10: a search payload without `items`, with `""` already
in the seen-set. -/
theorem c10_empty_commit_id_bypasses_dedup_witness :
    Ev.dupSkip "" ∉ (processChange envEmptyId cfgIC [""] [] 1 1 "deadbeef" "direct commit").1 ∧
    Ev.beginProcess "" ∈ (processChange envEmptyId cfgIC [""] [] 1 1 "deadbeef" "direct commit").1 ∧
    "" ∈ (processChange envEmptyId cfgIC [""] [] 1 1 "deadbeef" "direct commit").2.1 :=
  c10_empty_commit_id_bypasses_dedup envEmptyId cfgIC [""] [] 1 1 "deadbeef" "direct commit"
    [Ev.fetchHash "deadbeef"] {} (by decide)

/-- Claim C6: a PR whose label set contains a documentation label and no
changelog-type label other than the explicit "none" type is skipped by
the label filter; a PR carrying a changelog-type label different from the
"none" type is not skipped by this rule; and in the loop, a
non-duplicate PR on which the rule fires is skipped (no dispatch, no
prompt, processing continues). -/
theorem c6_doc_label_filter :
    (∀ labels : List String,
        (∃ l ∈ labels, isDocLabel l = true) →
        (∀ l ∈ labels, pyStartsWith l changelogLabelStart = true →
          afterFirstSlash l = changelogTypeNone) →
        docFilterSkip labels = true) ∧
    (∀ labels : List String,
        (∃ l ∈ labels, pyStartsWith l changelogLabelStart = true ∧
          afterFirstSlash l ≠ changelogTypeNone) →
        docFilterSkip labels = false) ∧
    (∀ (env : Env) (cfg : Cfg) (st inputs : List String) (i numChanges : Nat)
        (h s : String) (evs : List Ev) (cid : String) (pr : PrData),
        resolveChange env cfg.repo h s = .okRes evs cid pr →
        ¬(cid ≠ "" ∧ cid ∈ st) →
        docFilterSkip (sortStrings pr.labels) = true →
        processChange env cfg st inputs i numChanges h s =
          (evs ++ [Ev.beginProcess cid, Ev.docSkip cid],
            if cid ∈ st then st else cid :: st, inputs, Control.next)) := by
  refine ⟨?_, ?_, ?_⟩
  · rintro labels ⟨l, hl, hdoc⟩ hnone
    simp only [docFilterSkip, Bool.and_eq_true]
    refine ⟨List.any_eq_true.mpr ⟨l, hl, hdoc⟩, ?_⟩
    simp only [Bool.not_eq_true']
    rw [List.any_eq_false]
    intro l' hl'
    simp only [isRealChangelogLabel]
    by_cases hcs : pyStartsWith l' changelogLabelStart = true
    · rw [hcs, hnone l' hl' hcs]
      simp
    · rw [show pyStartsWith l' changelogLabelStart = false by simpa using hcs]
      simp
  · rintro labels ⟨l, hl, hcs, hne⟩
    simp only [docFilterSkip]
    have hreal : labels.any isRealChangelogLabel = true :=
      List.any_eq_true.mpr ⟨l, hl, by simp [isRealChangelogLabel, hcs, bne_iff_ne, hne]⟩
    rw [hreal]
    simp
  · intro env cfg st inputs i numChanges h s evs cid pr hres hdup hdoc
    rw [processChange_ok env cfg st inputs i numChanges h s evs cid pr hres hdup,
      afterDedup_docskip env cfg inputs i numChanges s cid pr hdoc]

/-- Witness for C6: the spec's two example label sets, and the loop-level
skip on the concrete documentation PR. -/
theorem c6_doc_label_filter_witness :
    docFilterSkip ["changelog/no-changelog", "documentation"] = true ∧
    docFilterSkip ["changelog/Fixed", "documentation"] = false ∧
    processChange envDoc10 cfgIC [] [] 1 1 "h1" "Fixes #10" =
      ([Ev.fetchPr "10"] ++ [Ev.beginProcess "10", Ev.docSkip "10"],
        if "10" ∈ ([] : List String) then ([] : List String) else ["10"], [], Control.next) :=
  ⟨c6_doc_label_filter.1 ["changelog/no-changelog", "documentation"]
      (by decide) (by decide),
    c6_doc_label_filter.2.1 ["changelog/Fixed", "documentation"] (by decide),
    c6_doc_label_filter.2.2 envDoc10 cfgIC [] [] 1 1 "h1" "Fixes #10"
      [Ev.fetchPr "10"] "10" prDoc10 (by decide) (by decide) (by decide)⟩

/-- Claim C7: a non-deduplicated, non-filtered PR with at least one
team-mapped label is dispatched automatically to all matching teams, the
input stream is untouched, processing continues, and no interactive
prompt event ever occurs for that PR. -/
theorem c7_auto_dispatch (env : Env) (cfg : Cfg) (st inputs : List String)
    (i numChanges : Nat) (h s : String) (evs : List Ev) (cid : String) (pr : PrData)
    (hres : resolveChange env cfg.repo h s = .okRes evs cid pr)
    (hdup : ¬(cid ≠ "" ∧ cid ∈ st))
    (hdoc : docFilterSkip (sortStrings pr.labels) = false)
    (hms : milestoneMismatch cfg.milestone pr.milestone = false)
    (hteams : (sortStrings pr.labels).filterMap env.labelTeamMap ≠ []) :
    processChange env cfg st inputs i numChanges h s =
      (evs ++ Ev.beginProcess cid ::
        Ev.dispatch ((sortStrings pr.labels).filterMap env.labelTeamMap) (pr.title.getD s) ::
        (create_trello_card env.createCard ((sortStrings pr.labels).filterMap env.labelTeamMap)
          (pr.title.getD s) (pr.html_url.getD (defaultPrUrl cfg.repo cid))
          (pr.body.getD "") cfg.dryRun).map Ev.card,
        if cid ∈ st then st else cid :: st, inputs, Control.next) ∧
    (∀ p : PEv, Ev.pe p ∉ (processChange env cfg st inputs i numChanges h s).1) := by
  have heq := processChange_ok env cfg st inputs i numChanges h s evs cid pr hres hdup
  have had := afterDedup_dispatch env cfg inputs i numChanges s cid pr hdoc hms hteams
  constructor
  · rw [heq, had]
  · intro p hmem
    simp only [heq, had] at hmem
    rcases List.mem_append.mp hmem with hmem | hmem
    · have h0 : Ev.pe p ∉ evs := by
        have h1 := resolvedEvs_not_mem_pe env cfg.repo h s p
        rw [hres] at h1
        exact h1
      exact h0 hmem
    · rcases List.mem_cons.mp hmem with hmem | hmem
      · exact absurd hmem (by simp)
      · rcases List.mem_cons.mp hmem with hmem | hmem
        · exact absurd hmem (by simp)
        · rcases List.mem_map.mp hmem with ⟨c, _, hc⟩
          exact absurd hc (by simp)

/-- Witness for C7 on the concrete team-labelled PR 10. -/
theorem c7_auto_dispatch_witness :
    processChange envTeam10 cfgIC [] [] 1 1 "h1" "Fixes #10" =
      ([Ev.fetchPr "10"] ++ Ev.beginProcess "10" ::
        Ev.dispatch ((sortStrings prTeam10.labels).filterMap envTeam10.labelTeamMap)
          (prTeam10.title.getD "Fixes #10") ::
        (create_trello_card envTeam10.createCard
          ((sortStrings prTeam10.labels).filterMap envTeam10.labelTeamMap)
          (prTeam10.title.getD "Fixes #10")
          (prTeam10.html_url.getD (defaultPrUrl cfgIC.repo "10"))
          (prTeam10.body.getD "") cfgIC.dryRun).map Ev.card,
        if "10" ∈ ([] : List String) then ([] : List String) else ["10"], [], Control.next) ∧
    (∀ p : PEv, Ev.pe p ∉ (processChange envTeam10 cfgIC [] [] 1 1 "h1" "Fixes #10").1) :=
  c7_auto_dispatch envTeam10 cfgIC [] [] 1 1 "h1" "Fixes #10"
    [Ev.fetchPr "10"] "10" prTeam10 (by decide) (by decide) (by decide) (by decide) (by decide)

/-- Claim C3: in a run over the diff `[(h1, "Fixes #10"), (h2, "Fixes
#10")]` in which the lookup of PR 10 succeeds and its labels route to at
least one team (so the run needs no interactive input), PR 10 passes the
dedup gate exactly once, and the second occurrence is skipped as a
duplicate with the informational message. -/
theorem c3_duplicate_pr_processed_once (h1 h2 : String) (env : Env) (cfg : Cfg)
    (inputs : List String) (d : PrData)
    (hget : env.getPr "10" = (200, d))
    (hteams : (sortStrings d.labels).filterMap env.labelTeamMap ≠ []) :
    (runLoop env cfg 2 [(1, h1, "Fixes #10"), (2, h2, "Fixes #10")] [] inputs).count
        (Ev.beginProcess "10") = 1 ∧
    Ev.dupSkip "10" ∈
      runLoop env cfg 2 [(1, h1, "Fixes #10"), (2, h2, "Fixes #10")] [] inputs := by
  have hpn : parse_pr_number "Fixes #10" = some "10" := by decide
  have hres : ∀ hh : String,
      resolveChange env cfg.repo hh "Fixes #10" = .okRes [Ev.fetchPr "10"] "10" d := by
    intro hh
    simp [resolveChange, hpn, hget, httpFatal]
  have hdup1 : ¬(("10" : String) ≠ "" ∧ ("10" : String) ∈ ([] : List String)) := by simp
  have hpc1 := processChange_ok env cfg [] inputs 1 2 h1 "Fixes #10"
    [Ev.fetchPr "10"] "10" d (hres h1) hdup1
  have hnext := afterDedup_next_of_teams env cfg inputs 1 2 "Fixes #10" "10" d hteams
  have hpc2 := processChange_dup env cfg ["10"] inputs 2 2 h2 "Fixes #10"
    [Ev.fetchPr "10"] "10" d (hres h2) (by simp) (by simp)
  have hbody : runLoop env cfg 2 [(1, h1, "Fixes #10"), (2, h2, "Fixes #10")] [] inputs =
      ([Ev.fetchPr "10"] ++ Ev.beginProcess "10" ::
        (afterDedup env cfg inputs 1 2 "Fixes #10" "10" d).1) ++
      ([Ev.fetchPr "10"] ++ [Ev.dupSkip "10"]) := by
    simp [runLoop, hpc1, hnext.1, hnext.2, hpc2]
  rw [hbody]
  constructor
  · have hz1 : Ev.beginProcess "10" ∉
        (afterDedup env cfg inputs 1 2 "Fixes #10" "10" d).1 :=
      afterDedup_not_mem_begin env cfg inputs 1 2 "Fixes #10" "10" d "10"
    simp [List.count_append, List.count_eq_zero.mpr hz1]
  · simp

/-- Witness for C3 in the concrete team-routed world. -/
theorem c3_duplicate_pr_processed_once_witness :
    (runLoop envTeam10 cfgIC 2
        [(1, "h1", "Fixes #10"), (2, "h2", "Fixes #10")] [] []).count
      (Ev.beginProcess "10") = 1 ∧
    Ev.dupSkip "10" ∈
      runLoop envTeam10 cfgIC 2 [(1, "h1", "Fixes #10"), (2, "h2", "Fixes #10")] [] [] :=
  c3_duplicate_pr_processed_once "h1" "h2" envTeam10 cfgIC [] prTeam10
    (by decide) (by decide)

/-- Claim C1 counterexample: a team whose three creation attempts are all
rate-limited exhausts its attempts without any failure being reported —
the loop at `testable.py:60-83` only emits `echo_failure` when the final
attempt returns a generic error, so the claim "a failure is reported
after the attempts are exhausted" fails when every attempt is
rate-limited. -/
theorem c1_counterexample_rate_limited_silent :
    create_trello_card (fun _ _ _ _ => CardResp.rateLimited) ["Core"] "T" "u" "b" false =
      [CEv.rateWarn 1 3 10, CEv.sleepEv 10, CEv.rateWarn 2 3 10, CEv.sleepEv 10,
        CEv.rateWarn 3 3 10, CEv.sleepEv 10] ∧
    (create_trello_card (fun _ _ _ _ => CardResp.rateLimited) ["Core"] "T" "u" "b" false).any
      (fun e => match e with
        | CEv.failMsg _ => true
        | _ => false) = false := by
  constructor <;> decide

/-- Claim C1 (amended): for every card-creation run in which all 3
attempts for a team fail and the final attempt returns a generic error,
a failure is reported after the attempts are exhausted (when the final
attempt is rate-limited the attempts end silently); in either case the
overall run is not aborted — the dispatch path always yields
`Control.next`, so processing continues with the next team and the next
PR. -/
theorem c1_amended_failure_reported (createCard : String → String → String → Nat → CardResp)
    (teams : List String) (t prTitle prUrl prBody e : String)
    (hmem : t ∈ teams)
    (h0 : ∀ u, createCard t prTitle ("Pull request: " ++ prUrl ++ "\n\n" ++ prBody) 0 ≠
      CardResp.success u)
    (h1 : ∀ u, createCard t prTitle ("Pull request: " ++ prUrl ++ "\n\n" ++ prBody) 1 ≠
      CardResp.success u)
    (h2 : createCard t prTitle ("Pull request: " ++ prUrl ++ "\n\n" ++ prBody) 2 =
      CardResp.errorResp e) :
    CEv.failMsg e ∈ create_trello_card createCard teams prTitle prUrl prBody false ∧
    (∀ (env : Env) (cfg : Cfg) (st inputs : List String) (i numChanges : Nat)
        (hsh subj : String) (evs : List Ev) (cid : String) (pr : PrData),
      resolveChange env cfg.repo hsh subj = .okRes evs cid pr →
      ¬(cid ≠ "" ∧ cid ∈ st) →
      (sortStrings pr.labels).filterMap env.labelTeamMap ≠ [] →
      (processChange env cfg st inputs i numChanges hsh subj).2.2.2 = Control.next) := by
  constructor
  · have hfail : CEv.failMsg e ∈
        attemptLoop (createCard t prTitle ("Pull request: " ++ prUrl ++ "\n\n" ++ prBody)) t 0 3 := by
      set resp := createCard t prTitle ("Pull request: " ++ prUrl ++ "\n\n" ++ prBody) with hresp
      have step2 : CEv.failMsg e ∈ attemptLoop resp t 2 1 := by
        simp only [attemptLoop, h2]
        simp
      have step1 : CEv.failMsg e ∈ attemptLoop resp t 1 2 := by
        rcases hr1 : resp 1 with _ | e1 | u1
        · simp only [attemptLoop, hr1]
          simp only [List.mem_cons]
          exact Or.inr (Or.inr step2)
        · simp only [attemptLoop, hr1]
          rw [if_neg (by simp)]
          simp only [List.mem_cons]
          exact Or.inr (Or.inr step2)
        · exact absurd hr1 (h1 u1)
      rcases hr0 : resp 0 with _ | e0 | u0
      · simp only [attemptLoop, hr0]
        simp only [List.mem_cons]
        exact Or.inr (Or.inr step1)
      · simp only [attemptLoop, hr0]
        rw [if_neg (by simp)]
        simp only [List.mem_cons]
        exact Or.inr (Or.inr step1)
      · exact absurd hr0 (h0 u0)
    simp only [create_trello_card]
    apply List.mem_flatten.mpr
    refine ⟨attemptLoop (createCard t prTitle ("Pull request: " ++ prUrl ++ "\n\n" ++ prBody)) t 0 3, ?_, hfail⟩
    apply List.mem_map.mpr
    exact ⟨t, hmem, by simp⟩
  · intro env cfg st inputs i numChanges hsh subj evs cid pr hres hdup hteams
    rw [processChange_ok env cfg st inputs i numChanges hsh subj evs cid pr hres hdup]
    exact (afterDedup_next_of_teams env cfg inputs i numChanges subj cid pr hteams).1

/-- Witness for the amended C1: two rate-limited attempts then a generic
error report the failure, and the dispatching change still yields
`Control.next`. -/
theorem c1_amended_failure_reported_witness :
    CEv.failMsg "boom" ∈ create_trello_card
      (fun _ _ _ a => if a = 2 then CardResp.errorResp "boom" else CardResp.rateLimited)
      ["Core"] "T" "u" "b" false ∧
    (∀ (env : Env) (cfg : Cfg) (st inputs : List String) (i numChanges : Nat)
        (hsh subj : String) (evs : List Ev) (cid : String) (pr : PrData),
      resolveChange env cfg.repo hsh subj = .okRes evs cid pr →
      ¬(cid ≠ "" ∧ cid ∈ st) →
      (sortStrings pr.labels).filterMap env.labelTeamMap ≠ [] →
      (processChange env cfg st inputs i numChanges hsh subj).2.2.2 = Control.next) :=
  c1_amended_failure_reported
    (fun _ _ _ a => if a = 2 then CardResp.errorResp "boom" else CardResp.rateLimited)
    ["Core"] "Core" "T" "u" "b" "boom" (by decide)
    (fun u => by intro hu; simp at hu) (fun u => by intro hu; simp at hu) (by decide)

/-- Claim C8: in the interactive prompt, an empty keypress resolves to
the default option, which is the first key (`"1"`) of the repo-specific
menu (dispatching its team, `Integrations` resp. `Core`); and any input
whose key is not in the option set echoes the choice, stores the
"not a valid option" error for the redisplayed prompt, and re-runs the
loop on the same PR with the same progress index `i` — only the input
stream advances. -/
theorem c8_prompt_default_and_invalid :
    (defaultOption (menuFor Repo.integrationsCore) = "1" ∧
      icOptions.head? = some ("1", "Integrations") ∧
      defaultOption (menuFor Repo.datadogAgent) = "1" ∧
      agentOptions.head? = some ("1", "Core")) ∧
    (∀ (i numChanges : Nat) (title cid ce : String) (rest : List String),
        promptLoop (menuFor Repo.integrationsCore) i numChanges title cid ce ("" :: rest) =
          ([PEv.render i numChanges title ce, PEv.echo "Integrations"], rest,
            PromptOutcome.team "Integrations")) ∧
    (∀ (i numChanges : Nat) (title cid ce : String) (rest : List String),
        promptLoop (menuFor Repo.datadogAgent) i numChanges title cid ce ("" :: rest) =
          ([PEv.render i numChanges title ce, PEv.echo "Core"], rest,
            PromptOutcome.team "Core")) ∧
    (∀ (m : Menu) (i numChanges : Nat) (title cid ce k : String) (rest : List String),
        pyStrip k ≠ "" → pyStrip k ≠ "\x00" →
        lookupOpt m.opts (pyStrip k) = none →
        promptLoop m i numChanges title cid ce (k :: rest) =
          (PEv.render i numChanges title ce :: PEv.echo (pyStrip k) ::
              (promptLoop m i numChanges title cid (invalidMsg (pyStrip k)) rest).1,
            (promptLoop m i numChanges title cid (invalidMsg (pyStrip k)) rest).2.1,
            (promptLoop m i numChanges title cid (invalidMsg (pyStrip k)) rest).2.2)) := by
  have hrcEmpty : ∀ rest : List String, readChoice ("" :: rest) = ("", rest) := by
    intro rest
    simp only [readChoice]
    rw [if_neg (by decide)]
    rfl
  refine ⟨⟨by decide, by decide, by decide, by decide⟩, ?_, ?_, ?_⟩
  · intro i numChanges title cid ce rest
    have hchosen : chosenKey (menuFor Repo.integrationsCore) ("" :: rest) = "1" := by
      simp only [chosenKey, hrcEmpty]
      rw [if_pos trivial]
      decide
    conv_lhs => rw [promptLoop.eq_def]
    rw [hchosen]
    rw [dif_pos (show (lookupOpt (menuFor Repo.integrationsCore).opts "1").isSome = true by decide)]
    simp only [hrcEmpty]
    rfl
  · intro i numChanges title cid ce rest
    have hchosen : chosenKey (menuFor Repo.datadogAgent) ("" :: rest) = "1" := by
      simp only [chosenKey, hrcEmpty]
      rw [if_pos trivial]
      decide
    conv_lhs => rw [promptLoop.eq_def]
    rw [hchosen]
    rw [dif_pos (show (lookupOpt (menuFor Repo.datadogAgent).opts "1").isSome = true by decide)]
    simp only [hrcEmpty]
    rfl
  · intro m i numChanges title cid ce k rest hk1 hk2 hlk
    have hrc : readChoice (k :: rest) = (pyStrip k, rest) := by
      simp only [readChoice]
      rw [if_neg hk2]
    have hchosen : chosenKey m (k :: rest) = pyStrip k := by
      simp only [chosenKey, hrc]
      rw [if_neg hk1]
    conv_lhs => rw [promptLoop.eq_def]
    rw [hchosen]
    rw [dif_neg (show ¬(lookupOpt m.opts (pyStrip k)).isSome = true by simp [hlk])]
    simp only [hrc]

/-- Witness for C8: empty keypress on both menus, and the invalid key
`z` followed by `s`. -/
theorem c8_prompt_default_and_invalid_witness :
    promptLoop (menuFor Repo.integrationsCore) 1 2 "T" "10" "" [""] =
      ([PEv.render 1 2 "T" "", PEv.echo "Integrations"], [],
        PromptOutcome.team "Integrations") ∧
    promptLoop (menuFor Repo.datadogAgent) 1 2 "T" "10" "" [""] =
      ([PEv.render 1 2 "T" "", PEv.echo "Core"], [], PromptOutcome.team "Core") ∧
    promptLoop (menuFor Repo.integrationsCore) 1 2 "T" "10" "" ["z", "s"] =
      (PEv.render 1 2 "T" "" :: PEv.echo (pyStrip "z") ::
          (promptLoop (menuFor Repo.integrationsCore) 1 2 "T" "10"
            (invalidMsg (pyStrip "z")) ["s"]).1,
        (promptLoop (menuFor Repo.integrationsCore) 1 2 "T" "10"
          (invalidMsg (pyStrip "z")) ["s"]).2.1,
        (promptLoop (menuFor Repo.integrationsCore) 1 2 "T" "10"
          (invalidMsg (pyStrip "z")) ["s"]).2.2) :=
  ⟨c8_prompt_default_and_invalid.2.1 1 2 "T" "10" "" [],
    c8_prompt_default_and_invalid.2.2.1 1 2 "T" "10" "" [],
    c8_prompt_default_and_invalid.2.2.2 (menuFor Repo.integrationsCore) 1 2 "T" "10" "" "z"
      ["s"] (by decide) (by decide) (by decide)⟩

theorem takeWhile_append_cons_false {α : Type} (p : α → Bool) (A : List α) (b : α)
    (B : List α) (hA : ∀ c ∈ A, p c = true) (hb : p b = false) :
    (A ++ b :: B).takeWhile p = A := by
  induction A with
  | nil => simp [List.takeWhile_cons, hb]
  | cons a A ih =>
    have ha := hA a (List.mem_cons_self a A)
    simp only [List.cons_append, List.takeWhile_cons, ha, if_true]
    rw [ih (fun c hc => hA c (List.mem_cons_of_mem a hc))]

theorem dropWhile_append_cons_false {α : Type} (p : α → Bool) (A : List α) (b : α)
    (B : List α) (hA : ∀ c ∈ A, p c = true) (hb : p b = false) :
    (A ++ b :: B).dropWhile p = b :: B := by
  induction A with
  | nil => simp [List.dropWhile_cons, hb]
  | cons a A ih =>
    have ha := hA a (List.mem_cons_self a A)
    simp only [List.cons_append, List.dropWhile_cons, ha, if_true]
    exact ih (fun c hc => hA c (List.mem_cons_of_mem a hc))

theorem line_roundtrip (h s : String)
    (hne : h ≠ "") (hws : ∀ c ∈ h.data, c.isWhitespace = false)
    (hhead : ∀ c, s.data.head? = some c → c.isWhitespace = false) :
    toPair (pySplitNone1 (renderLine (h, s))) = (h, s) := by
  have hdata : (renderLine (h, s)).data = h.data ++ ' ' :: s.data := by
    simp [renderLine, String.data_append]
  have hnws : ∀ c ∈ h.data, (!c.isWhitespace) = true := by
    intro c hc
    simp [hws c hc]
  have hsp : (!(' ' : Char).isWhitespace) = false := by decide
  have hdne : h.data ≠ [] := fun hh => hne (String.ext hh)
  have hdrop0 : (h.data ++ ' ' :: s.data).dropWhile Char.isWhitespace =
      h.data ++ ' ' :: s.data := by
    cases hhd : h.data with
    | nil => exact absurd hhd hdne
    | cons c0 hd =>
      have hc0 : c0.isWhitespace = false := hws c0 (by rw [hhd]; exact List.mem_cons_self _ _)
      simp [List.cons_append, List.dropWhile_cons, hc0]
  have htok : (h.data ++ ' ' :: s.data).takeWhile (fun c => !c.isWhitespace) = h.data :=
    takeWhile_append_cons_false _ _ _ _ hnws hsp
  have hdropTok : (h.data ++ ' ' :: s.data).dropWhile (fun c => !c.isWhitespace) =
      ' ' :: s.data :=
    dropWhile_append_cons_false _ _ _ _ hnws hsp
  have hrest : ((h.data ++ ' ' :: s.data).dropWhile
      (fun c => !c.isWhitespace)).dropWhile Char.isWhitespace = s.data := by
    rw [hdropTok]
    simp only [List.dropWhile_cons]
    rw [if_pos (by decide)]
    cases hsd : s.data with
    | nil => simp
    | cons c1 s' =>
      have hc1 : c1.isWhitespace = false := hhead c1 (by simp [hsd])
      simp [List.dropWhile_cons, hc1]
  have hnonempty : (h.data ++ ' ' :: s.data).isEmpty = false := by
    cases hhd : h.data with
    | nil => exact absurd hhd hdne
    | cons c0 hd => simp
  simp only [pySplitNone1, hdata, hdrop0]
  rw [if_neg (by rw [hnonempty]; exact Bool.false_ne_true)]
  rw [htok, hrest]
  cases hsd : s.data with
  | nil =>
    rw [if_pos (by rfl)]
    have hs : s = "" := String.ext hsd
    simp [toPair, strMkData, hs]
  | cons c1 s' =>
    rw [if_neg (by simp)]
    simp only [toPair]
    rw [strMkData]
    have hs : String.mk (c1 :: s') = s := by rw [← hsd]
    rw [hs]

/-- Claim C9: for every chronological commit list whose rendered `git
log` output is consumed newest-first, the Change Enumerator reverses the
external output and recovers the (hash, subject) pairs in chronological
order, oldest to newest. -/
theorem c9_changes_oldest_first (cs : List (String × String))
    (hcs : ∀ p ∈ cs, p.1 ≠ "" ∧ (∀ c ∈ p.1.data, c.isWhitespace = false) ∧
      (∀ c, p.2.data.head? = some c → c.isWhitespace = false)) :
    parseDiffLines ((cs.reverse).map renderLine) = cs := by
  simp only [parseDiffLines]
  simp only [List.map_reverse, List.reverse_reverse, List.map_map]
  have hpt : ∀ p ∈ cs, ((fun line => toPair (pySplitNone1 line)) ∘ renderLine) p = p := by
    intro p hp
    obtain ⟨h1, h2, h3⟩ := hcs p hp
    have hr := line_roundtrip p.1 p.2 h1 h2 h3
    simpa using hr
  calc cs.map ((fun line => toPair (pySplitNone1 line)) ∘ renderLine)
      = cs.map (fun p => p) := List.map_congr_left hpt
    _ = cs := List.map_id' cs

/-- Witness for C9 on a concrete two-commit history. -/
theorem c9_changes_oldest_first_witness :
    parseDiffLines ((([("h1", "older subject"), ("h2", "newest subject")] :
        List (String × String)).reverse).map renderLine) =
      [("h1", "older subject"), ("h2", "newest subject")] :=
  c9_changes_oldest_first [("h1", "older subject"), ("h2", "newest subject")] (by decide)
